import Mathlib

/-!
Verification development for the satisfiability-validation engine of a
federated-schema composition tool (`composition-js/src/validate.ts`).

The data model and operations below are a shallow embedding of the source.
Functions of the source file are translated definition by definition;
collaborator types and functions that the source imports from other packages
of the repository (graphs, paths, path-advancement, the schema object model)
are modelled from the specification and are marked `Modelled from the spec:`
in their doc comments.  Exceptions thrown by the source are modelled with
`Except`: a `ValidationError` throw travels in the `TErr.validation`
constructor and an assertion failure in `TErr.assertion`.
-/

namespace Fed

/-- Root operation kinds of a schema (query / mutation / subscription). -/
inductive RootKind where
  | query
  | mutation
  | subscription
deriving DecidableEq, Repr

/-- Modelled from the spec: the schema object model is an external
collaborator; only its identity is ever threaded through the validation
core, so it is modelled as a bare name. -/
structure Schema where
  name : String
deriving DecidableEq, Repr

/-- Modelled from the spec: GraphQL input types as consumed by the witness
value generator: scalars, enums (value names in declaration order), input
objects (fields as `(name, hasDefault, type)` triples in declaration order),
lists and non-null wrappers. -/
inductive InputType where
  | scalarType (name : String)
  | enumType (values : List String)
  | inputObjectType (fields : List (String × Bool × InputType))
  | listType (ofType : InputType)
  | nonNullType (ofType : InputType)

/-- Modelled from the spec: `isNullableType` of the schema model — every
input type is nullable except a non-null wrapper. -/
def isNullableType : InputType → Bool
  | .nonNullType _ => false
  | _ => true

/-- Values synthesized by the witness generator (JS values in the source). -/
inductive Value where
  | int (n : Int)
  | float (q : Rat)
  | bool (b : Bool)
  | str (s : String)
  | list (xs : List Value)
  | obj (fields : List (String × Value))

/-- Modelled from the spec: an argument declaration of a field definition. -/
structure ArgDef where
  name : String
  type : InputType

/-- Modelled from the spec: a field definition of the schema model — its
name and its declared arguments in order. -/
structure FieldDef where
  name : String
  args : List ArgDef

mutual

/-- `generateWitnessValue` from the source: a total, deterministic value
synthesizer for an input type. -/
def generateWitnessValue : InputType → Value
  | .scalarType n =>
    match n with
    | "Int" => .int 0
    | "Float" => .float 3.14
    | "Boolean" => .bool true
    | "String" => .str ("A string value")
    | "ID" => .str ("<any id>")
    | _ => .str ("<some value>")
  | .enumType values => .str (values.headD (""))
  | .inputObjectType fields => .obj (generateWitnessFields fields)
  | .listType _ => .list []
  | .nonNullType t => generateWitnessValue t

/-- The field loop of `generateWitnessValue` on an input object: fields with
a default value or a nullable type are skipped, the rest are synthesized
recursively, in declaration order. -/
def generateWitnessFields : List (String × Bool × InputType) → List (String × Value)
  | [] => []
  | (n, hasDefault, t) :: rest =>
    if hasDefault || isNullableType t then generateWitnessFields rest
    else (n, generateWitnessValue t) :: generateWitnessFields rest

end

/-- A field of the operation document model (`Field` in the source): the
field definition it selects plus one synthesized value per argument entry. -/
structure WField where
  definition : FieldDef
  args : List (String × Value)

/-- A fragment (type refinement) element of the document model
(`FragmentElement` in the source): the source type and the type condition
it casts to. -/
structure FragmentElem where
  sourceType : String
  typeCondition : String

mutual

/-- Modelled from the spec: the selection-set / operation document model —
a selection is a field selection or an inline-fragment selection, each with
an optional sub-selection set. -/
inductive Selection where
  | field (f : WField) (subSel : Option SelectionSet)
  | frag (fe : FragmentElem) (subSel : Option SelectionSet)

/-- Modelled from the spec: a selection set — the selectable parent type
name it is rooted at and its selections in order.  The empty-selections
form doubles as the ("ellipsis") sentinel of the witness builder. -/
inductive SelectionSet where
  | mk (parentType : String) (sels : List Selection)

end

/-- The selections of a selection set, in order. -/
def SelectionSet.sels : SelectionSet → List Selection
  | .mk _ s => s

/-- The parent type name of a selection set. -/
def SelectionSet.parentType : SelectionSet → String
  | .mk p _ => p

/-- `selection.selectionSet` of the document model: the optional
sub-selection set of a selection. -/
def Selection.selectionSet : Selection → Option SelectionSet
  | .field _ s => s
  | .frag _ s => s

/-- Transitions of the typed traversal graphs (`Transition` in
query-graphs): field collection, downcast, key resolution or the no-op
free transition. -/
inductive Transition where
  | fieldCollection (definition : FieldDef)
  | downCast (sourceType : String) (castedType : String)
  | keyResolution
  | freeTransition

/-- Whether a transition is the no-op free transition. -/
def Transition.isFree : Transition → Bool
  | .freeTransition => true
  | _ => false

/-- Modelled from the spec: a vertex of a traversal graph — its identity
(`index`), the name of its underlying type and whether that type is a leaf
(scalar or enum). -/
structure Vertex where
  index : Nat
  typeName : String
  isLeaf : Bool
deriving DecidableEq, Repr

instance : Inhabited Vertex := ⟨⟨0, "", false⟩⟩

/-- Modelled from the spec: a directed edge of a traversal graph, with head
and tail vertices, a transition, and an optional conditions selection set
that must be validated before the edge can be taken.  `id` models the
object identity used by the edge-exclusion sets. -/
structure Edge where
  id : Nat
  head : Vertex
  tail : Vertex
  transition : Transition
  conditions : Option SelectionSet

instance : Inhabited Edge := ⟨⟨0, default, default, .freeTransition, none⟩⟩

/-- Modelled from the spec: a typed traversal graph — a vertex count (all
vertex indices of a well-formed graph lie below it), the edge list, the
root vertex per root kind present, and the contributing schema sources. -/
structure Graph where
  numVerts : Nat
  edges : List Edge
  roots : List (RootKind × Vertex)
  sources : List Schema

/-- Modelled from the spec: the outgoing edges of a vertex. -/
def outEdges (g : Graph) (v : Vertex) : List Edge :=
  g.edges.filter (fun e => e.head.index == v.index)

/-- Modelled from the spec: the root vertex of a graph for a root kind,
when present. -/
def Graph.root (g : Graph) (k : RootKind) : Option Vertex :=
  (g.roots.find? (fun r => r.1 == k)).map (fun r => r.2)

/-- `graph.rootKinds()`: the root kinds present in a graph. -/
def Graph.rootKinds (g : Graph) : List RootKind :=
  g.roots.map (fun r => r.1)

/-- Modelled from the spec: a root-anchored path in one traversal graph —
an immutable sequence of `(transition, edge)` steps from a root vertex.
Both `RootPath<Transition>` and `OpGraphPath` of the source are modelled by
this one type. -/
structure GraphPath where
  graph : Graph
  rootVert : Vertex
  rootKind : RootKind
  edges : List (Transition × Edge)

/-- Modelled from the spec: extending a path by one `(transition, edge)`
step produces a new path. -/
def GraphPath.add (p : GraphPath) (t : Transition) (e : Edge) : GraphPath :=
  { p with edges := p.edges ++ [(t, e)] }

/-- The current (`tail`) vertex of a path. -/
def GraphPath.tailVert (p : GraphPath) : Vertex :=
  match p.edges.getLast? with
  | some te => te.2.tail
  | none => p.rootVert

/-- The type name of the tail vertex of a path. -/
def GraphPath.tailTypeName (p : GraphPath) : String :=
  p.tailVert.typeName

/-- `path.size`: the number of edges of a path. -/
def GraphPath.size (p : GraphPath) : Nat :=
  p.edges.length

/-- Modelled from the spec: the vertex indices a path has visited since its
last free-transition reset, given its starting vertex index and its steps —
a free step resets the visit record to its own tail. -/
def seenOf (root : Nat) (edges : List (Transition × Edge)) : List Nat :=
  edges.foldl
    (fun seen te => if te.1.isFree then [te.2.tail.index] else seen ++ [te.2.tail.index])
    [root]

/-- The visit record of a path since its last free-transition reset. -/
def GraphPath.seenAfter (p : GraphPath) : List Nat :=
  seenOf p.rootVert.index p.edges

/-- Modelled from the spec: `path.hasJustCycled()` — whether the last step
of the path revisited a vertex already visited since the last
free-transition reset. -/
def GraphPath.hasJustCycled (p : GraphPath) : Bool :=
  match p.edges.getLast? with
  | none => false
  | some te =>
    !te.1.isFree && (seenOf p.rootVert.index p.edges.dropLast).contains te.2.tail.index

/-- Modelled from the spec: `path.isTerminal()` — whether the tail vertex
has no outgoing edges. -/
def GraphPath.isTerminal (p : GraphPath) : Bool :=
  (outEdges p.graph p.tailVert).isEmpty

/-- `path.nextEdges()`: the outgoing edges available from the tail. -/
def GraphPath.nextEdges (p : GraphPath) : List Edge :=
  outEdges p.graph p.tailVert

/-- `path.hasAnyEdgeConditions()`: whether any edge on the path carries a
conditions selection set. -/
def GraphPath.hasAnyEdgeConditions (p : GraphPath) : Bool :=
  p.edges.any (fun te => te.2.conditions.isSome)

/-- `GraphPath.create(graph, vertex)`: a fresh zero-length path anchored at
a vertex. -/
def GraphPath.create (g : Graph) (v : Vertex) : GraphPath :=
  ⟨g, v, .query, []⟩

/-- `GraphPath.fromGraphRoot(graph, kind)`: a fresh zero-length path at the
root vertex for a root kind, when the graph has one. -/
def GraphPath.fromGraphRoot (g : Graph) (k : RootKind) : Option GraphPath :=
  (g.root k).map (fun v => ⟨g, v, k, []⟩)

/-- An operation document (`Operation` in the source): a root kind, a
selection set (optional, matching the runtime value the source builds) and
an empty variable-definitions map. -/
structure Operation where
  rootKind : RootKind
  selectionSet : Option SelectionSet
  variableDefinitions : Unit

/-- `buildWitnessField` from the source: a field selection for a field
definition with one synthesized argument entry per declared argument. -/
def buildWitnessField (definition : FieldDef) : WField :=
  ⟨definition, definition.args.map (fun a => (a.name, generateWitnessValue a.type))⟩

/-- The end-of-path case of `buildWitnessNextStep`: no selection when the
last edge's tail type is a leaf, the empty-selection sentinel otherwise. -/
def buildWitnessLastStep (edges : List Edge) : Option SelectionSet :=
  match edges.getLast? with
  | none => none
  | some e => if e.tail.isLeaf then none else some (.mk e.tail.typeName [])

/-- The recursion of `buildWitnessNextStep` over the remaining suffix of
the failing path: a downcast edge wraps the inner selection in a fragment,
a field edge in a field selection, and key resolution and free transitions
pass the inner selection through. -/
def buildWitnessSteps (edges : List Edge) : List Edge → Option SelectionSet
  | [] => buildWitnessLastStep edges
  | e :: rest =>
    let subSelection := buildWitnessSteps edges rest
    match e.transition with
    | .downCast sourceType castedType =>
      some (.mk e.head.typeName [.frag ⟨sourceType, castedType⟩ subSelection])
    | .fieldCollection definition =>
      some (.mk e.head.typeName [.field (buildWitnessField definition) subSelection])
    | .freeTransition => subSelection
    | .keyResolution => subSelection

/-- `buildWitnessNextStep` from the source: builds the witness selection
set for the suffix of the failing path starting at `index`, bottom-up. -/
def buildWitnessNextStep (edges : List Edge) (index : Nat) : Option SelectionSet :=
  buildWitnessSteps edges (edges.drop index)

/-- The assertion message of `buildWitnessOperation`. -/
def witnessSizeMsg : String := "unsatisfiablePath should contain at least one edge/transition"

/-- `buildWitnessOperation` from the source: asserts the failing path is
non-empty, then synthesizes the witness operation with the root kind of
the path and the selection set built over the path edges. -/
def buildWitnessOperation (witness : GraphPath) : Except String Operation :=
  if witness.size > 0 then
    .ok ⟨witness.rootKind, buildWitnessNextStep (witness.edges.map (fun te => te.2)) 0, ()⟩
  else .error witnessSizeMsg

/-- `ValidationError` from the source: the unsatisfiable supergraph path,
the exhausted subgraph paths and the synthesized witness operation. -/
structure ValidationError where
  message : String
  supergraphUnsatisfiablePath : GraphPath
  subgraphsPaths : List GraphPath
  witness : Operation

/-- `validationError` from the source: packages an unsatisfiable path and
the exhausted candidate paths together with the synthesized witness (whose
construction asserts the path is non-empty). -/
def validationError (unsatisfiablePath : GraphPath) (subgraphsPaths : List GraphPath) :
    Except String ValidationError :=
  (buildWitnessOperation unsatisfiablePath).map
    (fun w => ⟨"TODO", unsatisfiablePath, subgraphsPaths, w⟩)

/-- The two kinds of exception the validation core can throw: an expected
`ValidationError` or an internal assertion failure. -/
inductive TErr where
  | validation (e : ValidationError)
  | assertion (msg : String)

/-- The result of `validateConditions`: the source returns `null` for
failure and `undefined` for success, two distinct non-values. -/
inductive CondResult where
  | nullFailure
  | undefinedSuccess
deriving DecidableEq, Repr

/-- `ConditionValidationState` from the source: one selection of the
condition under validation paired with all candidate simultaneous path
sets that could realize the selections already matched. -/
structure CondState where
  selection : Selection
  subgraphPaths : List (List GraphPath)

/-- Modelled from the spec: whether a selection's element (field or
fragment) can be advanced along an edge's transition — a field selection
along a field-collection edge for the same field name, a fragment along a
downcast edge to its type condition. -/
def matchesElement (sel : Selection) (t : Transition) : Bool :=
  match sel, t with
  | .field f _, .fieldCollection d => f.definition.name == d.name
  | .frag fe _, .downCast _ c => fe.typeCondition == c
  | _, _ => false

/-- All ways of choosing one element from each list, in order (used to
advance a simultaneous path set: one advancement choice per path). -/
def listProd : List (List GraphPath) → List (List GraphPath)
  | [] => [[]]
  | l :: rest => (l.map (fun x => (listProd rest).map (fun comb => x :: comb))).flatten

mutual

/-- The size of a selection (termination measure only). -/
def selSize : Selection → Nat
  | .field _ sub => 1 + optSetSize sub
  | .frag _ sub => 1 + optSetSize sub

/-- The size of an optional selection set (termination measure only). -/
def optSetSize : Option SelectionSet → Nat
  | none => 0
  | some ss => 1 + setSize ss

/-- The size of a selection set (termination measure only). -/
def setSize : SelectionSet → Nat
  | .mk _ sels => 1 + selsSize sels

/-- The summed size of a list of selections (termination measure only). -/
def selsSize : List Selection → Nat
  | [] => 0
  | s :: rest => selSize s + selsSize rest

end

/-- The number of graph edges not yet excluded: the termination measure of
the nested condition-validation recursion, which only ever grows the
exclusion set. -/
def freeCount (g : Graph) (excl : List Nat) : Nat :=
  (g.edges.filter (fun e => !decide (e.id ∈ excl))).length

/-- The work-stack measure of the condition-validation loop: the total size
of the pending selections. -/
def stackM (stack : List CondState) : Nat :=
  (stack.map (fun c => selSize c.selection)).sum

/-- Excluding one more edge never increases the free-edge count. -/
def filterExclLe (i : Nat) (excl : List Nat) : (l : List Edge) →
    (l.filter (fun e => !decide (e.id ∈ i :: excl))).length ≤
      (l.filter (fun e => !decide (e.id ∈ excl))).length
  | [] => by simp
  | x :: l => by
    have ih := filterExclLe i excl l
    simp only [List.filter_cons]
    by_cases hx : x.id ∈ i :: excl
    · rw [show (!decide (x.id ∈ i :: excl)) = false by simp [hx]]
      by_cases hold : x.id ∈ excl
      · rw [show (!decide (x.id ∈ excl)) = false by simp [hold]]
        simpa using ih
      · rw [show (!decide (x.id ∈ excl)) = true by simp [hold]]
        simp only [Bool.false_eq_true, if_false, if_true, List.length_cons]
        omega
    · have hold : x.id ∉ excl := fun hc => hx (List.mem_cons_of_mem _ hc)
      rw [show (!decide (x.id ∈ i :: excl)) = true by simp [hx],
        show (!decide (x.id ∈ excl)) = true by simp [hold]]
      simp only [if_true, List.length_cons]
      omega

/-- Excluding an edge that is present in the graph and not yet excluded
strictly decreases the free-edge count. -/
def filterExclLt (i : Nat) (excl : List Nat) (hni : i ∉ excl) : (l : List Edge) →
    i ∈ l.map Edge.id →
    (l.filter (fun e => !decide (e.id ∈ i :: excl))).length <
      (l.filter (fun e => !decide (e.id ∈ excl))).length
  | [], h => by simp at h
  | x :: l, h => by
    simp only [List.filter_cons]
    rcases (by simpa using h : i = x.id ∨ i ∈ l.map Edge.id) with hx | hmem
    · have hxin : x.id ∈ i :: excl := by simp [hx]
      have hxold : x.id ∉ excl := by rw [← hx]; exact hni
      rw [show (!decide (x.id ∈ i :: excl)) = false by simp [hxin],
        show (!decide (x.id ∈ excl)) = true by simp [hxold]]
      have hle := filterExclLe i excl l
      simp only [Bool.false_eq_true, if_false, if_true, List.length_cons]
      omega
    · have ih := filterExclLt i excl hni l hmem
      by_cases hx2 : x.id ∈ i :: excl
      · rw [show (!decide (x.id ∈ i :: excl)) = false by simp [hx2]]
        by_cases hold : x.id ∈ excl
        · rw [show (!decide (x.id ∈ excl)) = false by simp [hold]]
          simpa using ih
        · rw [show (!decide (x.id ∈ excl)) = true by simp [hold]]
          simp only [Bool.false_eq_true, if_false, if_true, List.length_cons]
          omega
      · have hold : x.id ∉ excl := fun hc => hx2 (List.mem_cons_of_mem _ hc)
        rw [show (!decide (x.id ∈ i :: excl)) = true by simp [hx2],
          show (!decide (x.id ∈ excl)) = true by simp [hold]]
        simp only [if_true, List.length_cons]
        omega

/-- The summed selection sizes of a list agree with `selsSize`. -/
def mapSelSizeSum : (l : List Selection) → (l.map (fun s => selSize s)).sum = selsSize l
  | [] => by simp [selsSize]
  | a :: l => by
    have ih := mapSelSizeSum l
    simp [selsSize, ih]

/-- Every selection has positive size. -/
def selSizePos (s : Selection) : 0 < selSize s := by
  cases s <;> simp [selSize]

/-- The selections under a selection's sub-selection set are jointly
smaller than the selection itself. -/
def subSelsSizeLt (s : Selection) (ss : SelectionSet) (h : s.selectionSet = some ss) :
    selsSize ss.sels < selSize s := by
  cases s with
  | field f sub =>
    simp only [Selection.selectionSet] at h
    subst h
    cases ss with
    | mk pt sels => simp [selSize, optSetSize, setSize, SelectionSet.sels]; omega
  | frag fe sub =>
    simp only [Selection.selectionSet] at h
    subst h
    cases ss with
    | mk pt sels => simp [selSize, optSetSize, setSize, SelectionSet.sels]; omega

/-- Stack measure of the initial condition stack against the condition
selection set. -/
def initMeasureLt (c : SelectionSet) (np : List (List GraphPath)) :
    stackM ((c.sels.map (fun s => CondState.mk s np)).reverse) < setSize c := by
  simp only [stackM, List.map_reverse, List.sum_reverse, List.map_map]
  rw [show ((fun cs => selSize cs.selection) ∘ fun s => CondState.mk s np) =
      (fun s : Selection => selSize s) from rfl]
  rw [mapSelSizeSum]
  cases c with
  | mk pt sels => simp [setSize, SelectionSet.sels]

/-- Stack measure decrease when the popped selection's sub-selections are
pushed. -/
def pushMeasureLt (ss : SelectionSet) (np : List (List GraphPath)) (s : CondState)
    (rest : List CondState) (h : s.selection.selectionSet = some ss) :
    stackM ((ss.sels.map (fun sub => CondState.mk sub np)).reverse ++ rest) <
      stackM (s :: rest) := by
  have h2 := subSelsSizeLt s.selection ss h
  simp only [stackM, List.map_append, List.sum_append, List.map_reverse, List.sum_reverse,
    List.map_map, List.map_cons, List.sum_cons]
  rw [show ((fun cs => selSize cs.selection) ∘ fun sub => CondState.mk sub np) =
      (fun s : Selection => selSize s) from rfl]
  rw [mapSelSizeSum]
  omega

/-- Stack measure decrease when the popped selection has no sub-selection
set. -/
def popMeasureLt (s : CondState) (rest : List CondState) : stackM rest < stackM (s :: rest) := by
  have := selSizePos s.selection
  simp only [stackM, List.map_cons, List.sum_cons]
  omega

/-- The head selection's size is bounded by the stack measure. -/
def headMeasureLe (s : CondState) (rest : List CondState) :
    selSize s.selection ≤ stackM (s :: rest) := by
  simp only [stackM, List.map_cons, List.sum_cons]
  omega


mutual

/-- `validateConditions` from the source: an explicit-stack search deciding
whether a condition selection set can be satisfied starting from a path;
`nullFailure` models the `null` failure marker and `undefinedSuccess` the
`undefined` success non-value. -/
def validateConditions (g : Graph) (schema : Schema) (excl : List Nat)
    (conditions : SelectionSet) (initialPath : GraphPath) : CondResult :=
  condLoop g schema excl ((conditions.sels.map (fun s => CondState.mk s [[initialPath]])).reverse)
termination_by (freeCount g excl, setSize conditions, 9, 0)
decreasing_by
  simp_wf
  exact Prod.Lex.right _ (Prod.Lex.left _ _ (initMeasureLt conditions [[initialPath]]))

/-- The work-stack loop of `validateConditions`: pops a state, advances its
selection over all candidate path sets, fails on zero survivors, and
otherwise pushes one work item per sub-selection. -/
def condLoop (g : Graph) (schema : Schema) (excl : List Nat) : List CondState → CondResult
  | [] => .undefinedSuccess
  | s :: rest =>
    let newPaths := advancePathSets g schema excl s.selection s.subgraphPaths
    if newPaths.isEmpty then .nullFailure
    else
      match hss : s.selection.selectionSet with
      | some ss =>
        condLoop g schema excl
          ((ss.sels.map (fun sub => CondState.mk sub newPaths)).reverse ++ rest)
      | none => condLoop g schema excl rest
termination_by stack => (freeCount g excl, stackM stack, 8, 0)
decreasing_by
  · simp_wf
    have h1 := headMeasureLe s rest
    rcases Nat.eq_or_lt_of_le h1 with h2 | h2
    · rw [h2]
      exact Prod.Lex.right _ (Prod.Lex.right _ (Prod.Lex.left _ _ (by omega)))
    · exact Prod.Lex.right _ (Prod.Lex.left _ _ h2)
  · simp_wf
    exact Prod.Lex.right _ (Prod.Lex.left _ _ (pushMeasureLt ss _ s rest hss))
  · simp_wf
    exact Prod.Lex.right _ (Prod.Lex.left _ _ (popMeasureLt s rest))

/-- `ConditionValidationState.validateCurrentSelection` from the source:
advances the state selection over every candidate simultaneous path set;
`none` (the `null` marker) when zero path sets survive, otherwise one new
state per sub-selection of the current selection, sharing the surviving
path sets. -/
def validateCurrentSelection (g : Graph) (schema : Schema) (excl : List Nat) (s : CondState) :
    Option (List CondState) :=
  let newPaths := advancePathSets g schema excl s.selection s.subgraphPaths
  if newPaths.isEmpty then none
  else
    some (match s.selection.selectionSet with
      | some ss => ss.sels.map (fun sub => CondState.mk sub newPaths)
      | none => [])
termination_by (freeCount g excl, selSize s.selection, 7, 0)
decreasing_by
  simp_wf
  exact Prod.Lex.right _ (Prod.Lex.right _ (Prod.Lex.left _ _ (by omega)))

/-- Modelled from the spec: the flat-map of
`advanceSimultaneousPathsWithOperation` over all candidate simultaneous
path sets of a condition state. -/
def advancePathSets (g : Graph) (schema : Schema) (excl : List Nat) (sel : Selection) :
    List (List GraphPath) → List (List GraphPath)
  | [] => []
  | ps :: rest =>
    advanceSimultaneous g schema excl sel ps ++ advancePathSets g schema excl sel rest
termination_by pss => (freeCount g excl, selSize sel, 4, pss.length)
decreasing_by
  · simp_wf
    exact Prod.Lex.right _ (Prod.Lex.right _ (Prod.Lex.left _ _ (by omega)))
  · simp_wf
    exact Prod.Lex.right _ (Prod.Lex.right _ (Prod.Lex.right _ (by omega)))

/-- Modelled from the spec: `advanceSimultaneousPathsWithOperation` — every
way of advancing all paths of one simultaneous path set by the selection
element, one advancement choice per path. -/
def advanceSimultaneous (g : Graph) (schema : Schema) (excl : List Nat) (sel : Selection)
    (paths : List GraphPath) : List (List GraphPath) :=
  listProd (advancePathsEach g schema excl sel paths)
termination_by (freeCount g excl, selSize sel, 3, 0)
decreasing_by
  simp_wf
  exact Prod.Lex.right _ (Prod.Lex.right _ (Prod.Lex.left _ _ (by omega)))

/-- Modelled from the spec: the per-path advancement options of each path
of a simultaneous path set. -/
def advancePathsEach (g : Graph) (schema : Schema) (excl : List Nat) (sel : Selection) :
    List GraphPath → List (List GraphPath)
  | [] => []
  | p :: rest =>
    advanceOpPathEdges g schema excl sel p (outEdges g p.tailVert) ::
      advancePathsEach g schema excl sel rest
termination_by ps => (freeCount g excl, selSize sel, 2, ps.length)
decreasing_by
  · simp_wf
    exact Prod.Lex.right _ (Prod.Lex.right _ (Prod.Lex.left _ _ (by omega)))
  · simp_wf
    exact Prod.Lex.right _ (Prod.Lex.right _ (Prod.Lex.right _ (by omega)))

/-- Modelled from the spec: advancing one path by a selection element over
a list of candidate edges — an edge is taken when its transition matches
the element, it is not excluded, and its own conditions (if any) validate
recursively with the edge added to the exclusion set. -/
def advanceOpPathEdges (g : Graph) (schema : Schema) (excl : List Nat) (sel : Selection)
    (p : GraphPath) : List Edge → List GraphPath
  | [] => []
  | e :: rest =>
    let others := advanceOpPathEdges g schema excl sel p rest
    if hguard : (matchesElement sel e.transition && decide (e.id ∈ g.edges.map Edge.id) &&
        !decide (e.id ∈ excl)) = true then
      match e.conditions with
      | none => p.add e.transition e :: others
      | some c =>
        match validateConditions g schema (e.id :: excl) c (GraphPath.create g e.head) with
        | .undefinedSuccess => p.add e.transition e :: others
        | .nullFailure => others
    else others
termination_by es => (freeCount g excl, selSize sel, 1, es.length)
decreasing_by
  · simp_wf
    exact Prod.Lex.right _ (Prod.Lex.right _ (Prod.Lex.right _ (by omega)))
  · simp_wf
    simp only [Bool.and_eq_true, decide_eq_true_eq, Bool.not_eq_true',
      decide_eq_false_iff_not] at hguard
    exact Prod.Lex.left _ _ (filterExclLt e.id excl hguard.2 g.edges hguard.1.2)

end

/-- Modelled from the spec: whether a subgraph edge's transition matches a
supergraph transition — same kind, same field for field collections, same
casted type for downcasts. -/
def matchesTransition : Transition → Transition → Bool
  | .fieldCollection d, .fieldCollection d2 => d.name == d2.name
  | .downCast _ c, .downCast _ c2 => c == c2
  | .keyResolution, .keyResolution => true
  | .freeTransition, .freeTransition => true
  | _, _ => false

/-- Modelled from the spec: `advancePathWithTransition` — all ways of
advancing a subgraph path by one edge whose transition matches the
supergraph transition towards the target type, dropping candidates whose
edge conditions cannot be validated (the edge itself being excluded while
its own conditions are validated). -/
def advancePathWithTransition (schema : Schema) (p : GraphPath) (t : Transition)
    (targetTypeName : String) : List GraphPath :=
  ((outEdges p.graph p.tailVert).filter (fun e =>
    matchesTransition t e.transition && e.tail.typeName == targetTypeName &&
      (match e.conditions with
       | none => true
       | some c =>
         match validateConditions p.graph schema [e.id] c (GraphPath.create p.graph e.head) with
         | .undefinedSuccess => true
         | .nullFailure => false))).map (fun e => p.add t e)

/-- The assertion message of `validateTransition` on a conditioned
supergraph edge. -/
def superEdgeCondMsg : String := "Supergraph edges should not have conditions"

/-- The assertion message of the `ValidationState` constructor invariant. -/
def invalidStateMsg : String := "Invalid state: some subgraphs type do not match the supergraph"

/-- The assertion message of `initialSubgraphPaths` when the subgraphs
graph lacks a root the supergraph has. -/
def noSubgraphRootMsg : String := "The supergraph should not have a root kind that no subgraphs have"

/-- The assertion message of `initialSubgraphPaths` on a badly named
subgraphs root type. -/
def rootTypeMismatchMsg : String := "Unexpected type for subgraphs root type"

/-- The error message modelling the failed non-null access when the
supergraph lacks a root for the requested kind. -/
def noSupergraphRootMsg : String := "Missing supergraph root for root kind"

/-- The assertion message of `computeSubgraphPaths` on a conditioned
supergraph path. -/
def pathCondMsg : String := "A supergraph path should not have edge condition paths"

/-- `ValidationState` from the source: one supergraph path paired with all
candidate subgraph paths for it. -/
structure ValidationState where
  supergraphPath : GraphPath
  subgraphPaths : List GraphPath

/-- The `ValidationState` constructor from the source: asserts that the
underlying type name of every subgraph path tail equals the supergraph
path's tail type name; a violating state cannot be created. -/
def mkValidationState (supergraphPath : GraphPath) (subgraphPaths : List GraphPath) :
    Except TErr ValidationState :=
  if subgraphPaths.all (fun p => p.tailTypeName == supergraphPath.tailTypeName) then
    .ok ⟨supergraphPath, subgraphPaths⟩
  else .error (.assertion invalidStateMsg)

/-- `ValidationState.validateTransition` from the source: asserts the
supergraph edge is unconditioned, advances every candidate subgraph path by
the edge's transition towards its target type, extends the supergraph path
by the edge, and either throws an unsatisfiable-path `ValidationError`
(built from the extended path and the pre-step candidates) when zero
candidates survive, or returns the new state. -/
def validateTransition (supergraphSchema : Schema) (s : ValidationState)
    (supergraphEdge : Edge) : Except TErr ValidationState :=
  if supergraphEdge.conditions.isSome then .error (.assertion superEdgeCondMsg)
  else
    let transition := supergraphEdge.transition
    let targetType := supergraphEdge.tail.typeName
    let newSubgraphPaths :=
      (s.subgraphPaths.map
        (fun p => advancePathWithTransition supergraphSchema p transition targetType)).flatten
    let newPath := s.supergraphPath.add transition supergraphEdge
    if newSubgraphPaths.isEmpty then
      match validationError newPath s.subgraphPaths with
      | .ok ve => .error (.validation ve)
      | .error m => .error (.assertion m)
    else mkValidationState newPath newSubgraphPaths

/-- Modelled from the spec: `federatedGraphRootTypeName` — the canonical
type name of the services-graph root vertex for a root kind. -/
def federatedGraphRootTypeName : RootKind → String
  | .query => "[query]"
  | .mutation => "[mutation]"
  | .subscription => "[subscription]"

/-- `initialSubgraphPaths` from the source: asserts the subgraphs graph has
a root of the kind (the supergraph should not have one otherwise) with the
canonical root type name, and returns one path per outgoing root edge, each
the root path extended by that edge under a free transition. -/
def initialSubgraphPaths (kind : RootKind) (subgraphs : Graph) : Except TErr (List GraphPath) :=
  match subgraphs.root kind with
  | none => .error (.assertion noSubgraphRootMsg)
  | some root =>
    if root.typeName == federatedGraphRootTypeName kind then
      .ok ((outEdges subgraphs root).map
        (fun e => (GraphPath.mk subgraphs root kind []).add Transition.freeTransition e))
    else .error (.assertion rootTypeMismatchMsg)

/-- `ValidationState.initial` from the source: the state for one root kind,
pairing the supergraph root path with the initial subgraph paths. -/
def ValidationState.initial (supergraph : Graph) (kind : RootKind) (subgraphs : Graph) :
    Except TErr ValidationState := do
  let subPaths ← initialSubgraphPaths kind subgraphs
  match GraphPath.fromGraphRoot supergraph kind with
  | none => .error (.assertion noSupergraphRootMsg)
  | some rootPath => mkValidationState rootPath subPaths

/-- `ValidationState.hasCycled` from the source: whether any candidate
subgraph path has just revisited a vertex. -/
def ValidationState.hasCycled (s : ValidationState) : Bool :=
  s.subgraphPaths.any (fun p => p.hasJustCycled)

/-- The edge loop of `ValidationTaversal.handleState`: computes the
successor state for each outgoing supergraph edge and keeps the successors
that are neither terminal nor cycled (the only ones pushed). -/
def expandEdges (supergraphSchema : Schema) (s : ValidationState) :
    List Edge → Except TErr (List ValidationState)
  | [] => .ok []
  | e :: rest => do
    let ns ← validateTransition supergraphSchema s e
    let others ← expandEdges supergraphSchema s rest
    .ok (if !ns.supergraphPath.isTerminal && !ns.hasCycled then ns :: others else others)

/-- `ValidationTaversal.handleState` from the source. -/
def handleState (supergraphSchema : Schema) (s : ValidationState) :
    Except TErr (List ValidationState) :=
  expandEdges supergraphSchema s s.supergraphPath.nextEdges

/-- The explicit-stack loop of `ValidationTaversal.validate`, with explicit
fuel (`none` means the fuel ran out before the stack drained). -/
def validateLoop (supergraphSchema : Schema) : Nat → List ValidationState →
    Option (Except TErr Unit)
  | 0, _ => none
  | _ + 1, [] => some (.ok ())
  | fuel + 1, s :: rest =>
    match handleState supergraphSchema s with
    | .error e => some (.error e)
    | .ok children => validateLoop supergraphSchema fuel (children.reverse ++ rest)

/-- The root-kind loop of the `ValidationTaversal` constructor: one initial
state per root kind, in order. -/
def initStates (supergraph : Graph) (subgraphs : Graph) :
    List RootKind → Except TErr (List ValidationState)
  | [] => .ok []
  | k :: rest => do
    let s ← ValidationState.initial supergraph k subgraphs
    let others ← initStates supergraph subgraphs rest
    .ok (s :: others)

/-- The `ValidationTaversal` constructor from the source: one initial state
per supergraph root kind pushed onto the stack (so the last pushed is the
head). -/
def buildInitialStack (supergraph : Graph) (subgraphs : Graph) :
    Except TErr (List ValidationState) := do
  let states ← initStates supergraph subgraphs supergraph.rootKinds
  .ok states.reverse

/-- `new ValidationTaversal(supergraph, subgraphs).validate()` from the
source, with explicit fuel for the driver loop. -/
def runValidation (fuel : Nat) (supergraph : Graph) (subgraphs : Graph) :
    Option (Except TErr Unit) :=
  let supergraphSchema := supergraph.sources.headD ⟨""⟩
  match buildInitialStack supergraph subgraphs with
  | .error e => some (.error e)
  | .ok stack => validateLoop supergraphSchema fuel stack

/-- `validateGraphComposition` from the source: runs the full traversal,
returns no error on success, catches a thrown `ValidationError` into the
`error` field, and lets any other exception propagate (here the outer
`Except String`). -/
def validateGraphComposition (fuel : Nat) (supergraph : Graph) (subgraphs : Graph) :
    Option (Except String (Option ValidationError)) :=
  (runValidation fuel supergraph subgraphs).map (fun r =>
    match r with
    | .ok _ => .ok none
    | .error (.validation e) => .ok (some e)
    | .error (.assertion m) => .error m)

/-- The body of `computeSubgraphPaths` before its catch: asserts the
supplied supergraph path carries no edge conditions, builds the initial
state for the path's root kind and replays the path's edges through
`validateTransition`. -/
def computeSubgraphPathsInner (supergraphPath : GraphPath) (subgraphs : Graph) :
    Except TErr ValidationState :=
  if supergraphPath.hasAnyEdgeConditions then .error (.assertion pathCondMsg)
  else do
    let supergraphSchema := supergraphPath.graph.sources.headD ⟨""⟩
    let initialState ← ValidationState.initial supergraphPath.graph supergraphPath.rootKind
      subgraphs
    supergraphPath.edges.foldlM (fun st te => validateTransition supergraphSchema st te.2)
      initialState

/-- `computeSubgraphPaths` from the source: replays one supergraph path,
returning the resulting state, catching a `ValidationError` into the
`error` alternative, and propagating assertion failures (the outer
`Except String`). -/
def computeSubgraphPaths (supergraphPath : GraphPath) (subgraphs : Graph) :
    Except String (Except ValidationError ValidationState) :=
  match computeSubgraphPathsInner supergraphPath subgraphs with
  | .ok st => .ok (.ok st)
  | .error (.validation e) => .ok (.error e)
  | .error (.assertion m) => .error m

/-- A tiny supergraph: a query root of type `Query` with one field edge
`x : T` to a leaf vertex. -/
def wSuperRoot : Vertex := ⟨0, "Query", false⟩

/-- The leaf tail vertex of the tiny supergraph. -/
def wSuperLeaf : Vertex := ⟨1, "T", true⟩

/-- The field edge `Query.x : T` of the tiny supergraph. -/
def wSuperEdge : Edge := ⟨0, wSuperRoot, wSuperLeaf, .fieldCollection ⟨"x", []⟩, none⟩

/-- The tiny supergraph. -/
def wSuper : Graph := ⟨2, [wSuperEdge], [(.query, wSuperRoot)], [⟨"supergraph"⟩]⟩

/-- The services-graph root vertex of the tiny examples. -/
def wSubsRoot : Vertex := ⟨0, "[query]", false⟩

/-- The `Query` vertex of the tiny services graphs. -/
def wSubsQuery : Vertex := ⟨1, "Query", false⟩

/-- The leaf vertex of the tiny services graphs. -/
def wSubsLeaf : Vertex := ⟨2, "T", true⟩

/-- The free root edge of the tiny services graphs. -/
def wSubsFreeEdge : Edge := ⟨0, wSubsRoot, wSubsQuery, .freeTransition, none⟩

/-- The matching field edge `Query.x : T` of the satisfiable services
graph. -/
def wSubsFieldEdge : Edge := ⟨1, wSubsQuery, wSubsLeaf, .fieldCollection ⟨"x", []⟩, none⟩

/-- A services graph that can mirror the tiny supergraph. -/
def wSubsOk : Graph := ⟨3, [wSubsFreeEdge, wSubsFieldEdge], [(.query, wSubsRoot)], []⟩

/-- A services graph lacking the field edge `x`, so the tiny supergraph is
unsatisfiable against it. -/
def wSubsBad : Graph := ⟨3, [wSubsFreeEdge], [(.query, wSubsRoot)], []⟩

/-- A services graph with no query root at all. -/
def wSubsNoRoot : Graph := ⟨3, [], [], []⟩

/-- The failing supergraph path produced by validating `wSuper` against
`wSubsBad`. -/
def wFailPath : GraphPath := ⟨wSuper, wSuperRoot, .query, [(.fieldCollection ⟨"x", []⟩, wSuperEdge)]⟩

/-- The exhausted candidate subgraph path at the point of failure. -/
def wFailSubPath : GraphPath := ⟨wSubsBad, wSubsRoot, .query, [(.freeTransition, wSubsFreeEdge)]⟩

/-- The `ValidationError` thrown when validating `wSuper` against
`wSubsBad`. -/
def wFailErr : ValidationError :=
  ⟨"TODO", wFailPath, [wFailSubPath],
    ⟨.query, some (.mk ("Query") [.field ⟨⟨"x", []⟩, []⟩ none]), ()⟩⟩

/-- An interface vertex used by the downcast witness example. -/
def wCastVertex : Vertex := ⟨3, "I", false⟩

/-- A key-resolution edge for the witness-builder example. -/
def wKeyEdge : Edge := ⟨2, wSuperRoot, wSuperRoot, .keyResolution, none⟩

/-- A downcast edge `I ... on Query` for the witness-builder example. -/
def wDCEdge : Edge := ⟨3, wCastVertex, wSuperRoot, .downCast ("I") "Query", none⟩

/-- A failing-path edge list exercising every transition kind of the
witness builder. -/
def wWitEdges : List Edge := [wKeyEdge, wDCEdge, wSuperEdge]

/-- A conditioned supergraph edge (which the validator must reject by
assertion). -/
def wCondSuperEdge : Edge :=
  ⟨9, wSuperRoot, wSuperLeaf, .fieldCollection ⟨"x", []⟩, some (.mk ("Query") [])⟩

/-- A supergraph path carrying a conditioned edge. -/
def wCondPath : GraphPath :=
  ⟨wSuper, wSuperRoot, .query, [(.fieldCollection ⟨"x", []⟩, wCondSuperEdge)]⟩

/-- The head vertex of the tiny condition graph. -/
def wCondHead : Vertex := ⟨0, "A", false⟩

/-- The leaf tail vertex of the tiny condition graph. -/
def wCondTail : Vertex := ⟨1, "B", true⟩

/-- The single field edge `A.f : B` of the tiny condition graph. -/
def wCondEdge : Edge := ⟨0, wCondHead, wCondTail, .fieldCollection ⟨"f", []⟩, none⟩

/-- The tiny condition graph. -/
def wCondGraph : Graph := ⟨2, [wCondEdge], [], []⟩

/-- A satisfiable one-field condition on the tiny condition graph. -/
def wCondOk : SelectionSet := .mk ("A") [.field ⟨⟨"f", []⟩, []⟩ none]

/-- An unsatisfiable one-field condition on the tiny condition graph. -/
def wCondBad : SelectionSet := .mk ("A") [.field ⟨⟨"g", []⟩, []⟩ none]

/-- A satisfiable condition state on the tiny condition graph. -/
def wCondStateOk : CondState :=
  ⟨.field ⟨⟨"f", []⟩, []⟩ none, [[GraphPath.create wCondGraph wCondHead]]⟩

/-- An unsatisfiable condition state on the tiny condition graph. -/
def wCondStateBad : CondState :=
  ⟨.field ⟨⟨"g", []⟩, []⟩ none, [[GraphPath.create wCondGraph wCondHead]]⟩

/-- The number of edges of a state's supergraph path. -/
def superLen (s : ValidationState) : Nat :=
  s.supergraphPath.edges.length

/-- The exponential weight of one stacked state for the termination
measure of the driver loop. -/
def stateWeight (K n : Nat) (s : ValidationState) : Nat :=
  K ^ (n + 1 - superLen s)

/-- The termination measure of the driver loop: the summed weights of the
stacked states. -/
def stackWeight (K n : Nat) (stack : List ValidationState) : Nat :=
  (stack.map (stateWeight K n)).sum

/-- The invariant of a candidate subgraph path of a stacked state: it lives
in the subgraphs graph, its visit record since the last reset repeats no
vertex, stays within the graph's vertex indices, and has one entry more
than the supergraph path has edges. -/
def pathInv (subs : Graph) (l : Nat) (p : GraphPath) : Prop :=
  p.graph = subs ∧ p.seenAfter.Nodup ∧ (∀ v ∈ p.seenAfter, v < subs.numVerts) ∧
    p.seenAfter.length = l + 1

/-- The invariant of every state reachable on the driver stack. -/
def stateInv (supergraph subs : Graph) (s : ValidationState) : Prop :=
  s.supergraphPath.graph = supergraph ∧ superLen s ≤ subs.numVerts ∧
    ∀ p ∈ s.subgraphPaths, pathInv subs (superLen s) p

/-- Well-formedness of a traversal graph: every edge tail index lies below
the vertex count. -/
def graphWF (g : Graph) : Prop :=
  ∀ e ∈ g.edges, e.tail.index < g.numVerts

/-- A graph none of whose edges carries the no-op free transition (true of
merged graphs, whose edges are field collections and downcasts). -/
def noFreeEdges (g : Graph) : Prop :=
  ∀ e ∈ g.edges, e.transition.isFree = false

theorem tailVert_add (p : GraphPath) (t : Transition) (e : Edge) :
    (p.add t e).tailVert = e.tail := by
  simp [GraphPath.add, GraphPath.tailVert, List.getLast?_concat]

theorem tailTypeName_add (p : GraphPath) (t : Transition) (e : Edge) :
    (p.add t e).tailTypeName = e.tail.typeName := by
  simp [GraphPath.tailTypeName, tailVert_add]

theorem seenAfter_add (p : GraphPath) (t : Transition) (e : Edge) :
    (p.add t e).seenAfter =
      if t.isFree then [e.tail.index] else p.seenAfter ++ [e.tail.index] := by
  cases hf : t.isFree <;>
    simp [GraphPath.seenAfter, seenOf, GraphPath.add, List.foldl_concat, hf]

theorem hasJustCycled_add (p : GraphPath) (t : Transition) (e : Edge) :
    (p.add t e).hasJustCycled = (!t.isFree && p.seenAfter.contains e.tail.index) := by
  simp [GraphPath.hasJustCycled, GraphPath.add, List.getLast?_concat, List.dropLast_concat,
    GraphPath.seenAfter]

theorem buildWitnessOperation_of_ne (p : GraphPath) (h : p.edges ≠ []) :
    buildWitnessOperation p =
      .ok ⟨p.rootKind, buildWitnessNextStep (p.edges.map (fun te => te.2)) 0, ()⟩ := by
  unfold buildWitnessOperation GraphPath.size
  rw [if_pos (List.length_pos.mpr h)]

theorem validationError_of_ne (p : GraphPath) (subs : List GraphPath) (h : p.edges ≠ []) :
    validationError p subs =
      .ok ⟨"TODO", p, subs,
        ⟨p.rootKind, buildWitnessNextStep (p.edges.map (fun te => te.2)) 0, ()⟩⟩ := by
  simp [validationError, buildWitnessOperation_of_ne p h, Except.map]

theorem mkValidationState_ok (sp : GraphPath) (sps : List GraphPath)
    (h : ∀ p ∈ sps, p.tailTypeName = sp.tailTypeName) :
    mkValidationState sp sps = .ok ⟨sp, sps⟩ := by
  unfold mkValidationState
  rw [if_pos (List.all_eq_true.mpr (fun p hp => beq_iff_eq.mpr (h p hp)))]

theorem mkValidationState_ok_inv (sp : GraphPath) (sps : List GraphPath) (st : ValidationState)
    (h : mkValidationState sp sps = .ok st) :
    st = ⟨sp, sps⟩ ∧ ∀ p ∈ sps, p.tailTypeName = sp.tailTypeName := by
  unfold mkValidationState at h
  split at h
  · refine ⟨(Except.ok.inj h).symm, fun p hp => beq_iff_eq.mp ?_⟩
    next hall => exact List.all_eq_true.mp hall p hp
  · cases h

theorem mkValidationState_err (sp : GraphPath) (sps : List GraphPath)
    (h : ¬ ∀ p ∈ sps, p.tailTypeName = sp.tailTypeName) :
    mkValidationState sp sps = .error (.assertion invalidStateMsg) := by
  unfold mkValidationState
  rw [if_neg]
  intro hall
  exact h (fun p hp => beq_iff_eq.mp (List.all_eq_true.mp hall p hp))

/-- C7: `generateWitnessValue` is a total deterministic function of the
input type: Int maps to 0, Float to the fixed constant 3.14, Boolean to
true, String to the fixed placeholder, ID to the ("any id") placeholder,
other scalars to the generic placeholder, enums to their first declared
value, lists to the empty list, non-null wrappers to the wrapped value
(never null), and input objects to exactly the non-defaulted non-nullable
fields synthesized recursively — in particular the one-required-String,
one-nullable-Int input object yields only the String field bound to the
placeholder string. -/
theorem generateWitnessValue_spec :
    generateWitnessValue (.scalarType ("Int")) = .int 0 ∧
    generateWitnessValue (.scalarType ("Float")) = .float 3.14 ∧
    generateWitnessValue (.scalarType ("Boolean")) = .bool true ∧
    generateWitnessValue (.scalarType ("String")) = .str ("A string value") ∧
    generateWitnessValue (.scalarType ("ID")) = .str ("<any id>") ∧
    (∀ s : String, s ≠ "Int" → s ≠ "Float" → s ≠ "Boolean" → s ≠ "String" → s ≠ "ID" →
      generateWitnessValue (.scalarType s) = .str ("<some value>")) ∧
    (∀ (v : String) (vs : List String),
      generateWitnessValue (.enumType (v :: vs)) = .str v) ∧
    (∀ t, generateWitnessValue (.listType t) = .list []) ∧
    (∀ t, generateWitnessValue (.nonNullType t) = generateWitnessValue t) ∧
    (∀ fields, generateWitnessValue (.inputObjectType fields) =
      .obj (generateWitnessFields fields)) ∧
    (∀ (n : String) (hd : Bool) (t : InputType) rest, hd = true ∨ isNullableType t = true →
      generateWitnessFields ((n, hd, t) :: rest) = generateWitnessFields rest) ∧
    (∀ (n : String) (t : InputType) rest, isNullableType t = false →
      generateWitnessFields ((n, false, t) :: rest) =
        (n, generateWitnessValue t) :: generateWitnessFields rest) ∧
    generateWitnessValue (.inputObjectType
      [("field", false, .nonNullType (.scalarType ("String"))),
       ("other", false, .scalarType ("Int"))]) =
      .obj [("field", .str ("A string value"))] := by
  refine ⟨rfl, rfl, rfl, rfl, rfl, ?_, ?_, ?_, ?_, ?_, ?_, ?_, rfl⟩
  · intro s h1 h2 h3 h4 h5
    simp [generateWitnessValue, h1, h2, h3, h4, h5]
  · intro v vs
    simp [generateWitnessValue]
  · intro t
    simp [generateWitnessValue]
  · intro t
    simp [generateWitnessValue]
  · intro fields
    simp [generateWitnessValue]
  · intro n hd t rest h
    rcases h with h | h
    · subst h
      simp [generateWitnessFields]
    · simp [generateWitnessFields, h]
  · intro n t rest h
    simp [generateWitnessFields, h]

/-- C7 witness: the custom-scalar clause and the two input-object field
clauses of `generateWitnessValue_spec` evaluated at concrete inputs. -/
theorem generateWitnessValue_spec_witness :
    generateWitnessValue (.scalarType ("Custom")) = .str ("<some value>") ∧
    generateWitnessFields [("o", true, .scalarType ("Int"))] = generateWitnessFields [] ∧
    generateWitnessFields [("f", false, .nonNullType (.scalarType ("Int")))] =
      [("f", generateWitnessValue (.nonNullType (.scalarType ("Int"))))] := by
  refine ⟨?_, ?_, ?_⟩
  · exact generateWitnessValue_spec.2.2.2.2.2.1 ("Custom") (by decide) (by decide) (by decide)
      (by decide) (by decide)
  · exact generateWitnessValue_spec.2.2.2.2.2.2.2.2.2.2.1 ("o") true (.scalarType ("Int")) []
      (Or.inl rfl)
  · exact generateWitnessValue_spec.2.2.2.2.2.2.2.2.2.2.2.1 ("f") (.nonNullType (.scalarType ("Int")))
      [] rfl

/-- C6: the synthesized witness operation's root kind equals the failing
path's root kind; each field-collection edge contributes a field selection
with one argument entry per declared argument; each downcast edge wraps the
inner selection in a fragment on the casted type; key-resolution and free
transitions contribute no syntax; and at the end of the path the innermost
selection is absent for a leaf tail type and the empty-selection sentinel
otherwise. -/
theorem buildWitness_structure :
    (∀ (p : GraphPath) (op : Operation), buildWitnessOperation p = .ok op →
      op.rootKind = p.rootKind ∧
      op.selectionSet = buildWitnessNextStep (p.edges.map (fun te => te.2)) 0) ∧
    (∀ (edges : List Edge) (i : Nat) (d : FieldDef) (hi : i < edges.length),
      (edges.getD i default).transition = .fieldCollection d →
      buildWitnessNextStep edges i =
        some (.mk (edges.getD i default).head.typeName
          [.field (buildWitnessField d) (buildWitnessNextStep edges (i + 1))])) ∧
    (∀ (edges : List Edge) (i : Nat) (st ct : String) (hi : i < edges.length),
      (edges.getD i default).transition = .downCast st ct →
      buildWitnessNextStep edges i =
        some (.mk (edges.getD i default).head.typeName
          [.frag ⟨st, ct⟩ (buildWitnessNextStep edges (i + 1))])) ∧
    (∀ (edges : List Edge) (i : Nat) (hi : i < edges.length),
      (edges.getD i default).transition = .keyResolution ∨
        (edges.getD i default).transition = .freeTransition →
      buildWitnessNextStep edges i = buildWitnessNextStep edges (i + 1)) ∧
    (∀ (edges : List Edge) (e : Edge), edges.getLast? = some e →
      buildWitnessNextStep edges edges.length =
        if e.tail.isLeaf then none else some (.mk e.tail.typeName [])) ∧
    (∀ d : FieldDef,
      (buildWitnessField d).args = d.args.map (fun a => (a.name, generateWitnessValue a.type)) ∧
      (buildWitnessField d).args.length = d.args.length) := by
  refine ⟨?_, ?_, ?_, ?_, ?_, ?_⟩
  · intro p op h
    unfold buildWitnessOperation GraphPath.size at h
    split at h
    · exact (Except.ok.inj h) ▸ ⟨rfl, rfl⟩
    · cases h
  · intro edges i d hi ht
    rw [List.getD_eq_getElem _ _ hi] at ht ⊢
    unfold buildWitnessNextStep
    rw [List.drop_eq_getElem_cons hi]
    simp [buildWitnessSteps, ht]
  · intro edges i st ct hi ht
    rw [List.getD_eq_getElem _ _ hi] at ht ⊢
    unfold buildWitnessNextStep
    rw [List.drop_eq_getElem_cons hi]
    simp [buildWitnessSteps, ht]
  · intro edges i hi ht
    unfold buildWitnessNextStep
    rw [List.drop_eq_getElem_cons hi]
    rw [List.getD_eq_getElem _ _ hi] at ht
    rcases ht with ht | ht <;> simp [buildWitnessSteps, ht]
  · intro edges e hl
    unfold buildWitnessNextStep
    rw [List.drop_length]
    simp [buildWitnessSteps, buildWitnessLastStep, hl]
  · intro d
    exact ⟨rfl, by simp [buildWitnessField]⟩

/-- C6 witness: the structure clauses of `buildWitness_structure` evaluated
on a concrete failing path with a key-resolution, a downcast and a field
edge ending at a leaf. -/
theorem buildWitness_structure_witness :
    (Operation.mk .query (buildWitnessNextStep (wFailPath.edges.map (fun te => te.2)) 0)
        ()).rootKind = wFailPath.rootKind ∧
    buildWitnessNextStep wWitEdges 0 = buildWitnessNextStep wWitEdges 1 ∧
    buildWitnessNextStep wWitEdges 1 =
      some (.mk (wWitEdges.getD 1 default).head.typeName
        [.frag ⟨"I", "Query"⟩ (buildWitnessNextStep wWitEdges 2)]) ∧
    buildWitnessNextStep wWitEdges 2 =
      some (.mk (wWitEdges.getD 2 default).head.typeName
        [.field (buildWitnessField ⟨"x", []⟩) (buildWitnessNextStep wWitEdges 3)]) ∧
    buildWitnessNextStep wWitEdges wWitEdges.length =
      (if wSuperEdge.tail.isLeaf then none else some (.mk wSuperEdge.tail.typeName [])) := by
  refine ⟨?_, ?_, ?_, ?_, ?_⟩
  · exact (buildWitness_structure.1 wFailPath _ (by rfl)).1
  · exact buildWitness_structure.2.2.2.1 wWitEdges 0 (by decide) (Or.inl rfl)
  · exact buildWitness_structure.2.2.1 wWitEdges 1 ("I") "Query" (by decide) rfl
  · exact buildWitness_structure.2.1 wWitEdges 2 ⟨"x", []⟩ (by decide) rfl
  · exact buildWitness_structure.2.2.2.2.1 wWitEdges wSuperEdge rfl

/-- C4: every `ValidationState` the constructor accepts satisfies the
tail-type-name invariant between the supergraph path and all subgraph
paths, and a violating state cannot be created (the constructor asserts). -/
theorem validationState_invariant :
    (∀ (sp : GraphPath) (sps : List GraphPath) (st : ValidationState),
      mkValidationState sp sps = .ok st →
      st.supergraphPath = sp ∧ st.subgraphPaths = sps ∧
        ∀ p ∈ st.subgraphPaths, p.tailTypeName = st.supergraphPath.tailTypeName) ∧
    (∀ (sp : GraphPath) (sps : List GraphPath),
      (∃ p ∈ sps, p.tailTypeName ≠ sp.tailTypeName) →
      mkValidationState sp sps = .error (.assertion invalidStateMsg)) := by
  constructor
  · intro sp sps st h
    obtain ⟨hst, hall⟩ := mkValidationState_ok_inv sp sps st h
    subst hst
    exact ⟨rfl, rfl, hall⟩
  · intro sp sps h
    apply mkValidationState_err
    intro hall
    obtain ⟨p, hp, hne⟩ := h
    exact hne (hall p hp)

/-- C4 witness: the constructor accepts a matching state and rejects a
mismatched one. -/
theorem validationState_invariant_witness :
    (∀ p ∈ (ValidationState.mk ⟨wSuper, wSuperRoot, .query, []⟩
        [⟨wSubsOk, wSubsQuery, .query, []⟩]).subgraphPaths,
      p.tailTypeName = (ValidationState.mk ⟨wSuper, wSuperRoot, .query, []⟩
        [⟨wSubsOk, wSubsQuery, .query, []⟩]).supergraphPath.tailTypeName) ∧
    mkValidationState ⟨wSuper, wSuperRoot, .query, []⟩ [⟨wSubsOk, wSubsRoot, .query, []⟩] =
      .error (.assertion invalidStateMsg) := by
  constructor
  · exact (validationState_invariant.1 ⟨wSuper, wSuperRoot, .query, []⟩
      [⟨wSubsOk, wSubsQuery, .query, []⟩] _ (by rfl)).2.2
  · exact validationState_invariant.2 ⟨wSuper, wSuperRoot, .query, []⟩
      [⟨wSubsOk, wSubsRoot, .query, []⟩]
      ⟨⟨wSubsOk, wSubsRoot, .query, []⟩, by simp, by decide⟩

theorem validationError_err_inv (p : GraphPath) (subs : List GraphPath) (m : String)
    (h : validationError p subs = .error m) : m = witnessSizeMsg := by
  unfold validationError buildWitnessOperation at h
  split at h
  · simp [Except.map] at h
  · simp [Except.map] at h
    exact h.symm

theorem mkValidationState_err_inv (sp : GraphPath) (sps : List GraphPath) (t : TErr)
    (h : mkValidationState sp sps = .error t) : t = .assertion invalidStateMsg := by
  unfold mkValidationState at h
  split at h
  · cases h
  · exact (Except.error.inj h).symm

theorem validateTransition_assert_msgs (schema : Schema) (s : ValidationState) (e : Edge)
    (m : String) (h : validateTransition schema s e = .error (.assertion m)) :
    m = superEdgeCondMsg ∨ m = witnessSizeMsg ∨ m = invalidStateMsg := by
  unfold validateTransition at h
  dsimp only at h
  split at h
  · simp only [Except.error.injEq, TErr.assertion.injEq] at h
    exact Or.inl h.symm
  · split at h
    · split at h
      · simp at h
      · simp only [Except.error.injEq, TErr.assertion.injEq] at h
        next m2 hve =>
          exact Or.inr (Or.inl (h ▸ validationError_err_inv _ _ m2 hve))
    · have := mkValidationState_err_inv _ _ _ h
      simp only [TErr.assertion.injEq] at this
      exact Or.inr (Or.inr this)

theorem initialSubgraphPaths_err_inv (kind : RootKind) (subs : Graph) (t : TErr)
    (h : initialSubgraphPaths kind subs = .error t) :
    t = .assertion noSubgraphRootMsg ∨ t = .assertion rootTypeMismatchMsg := by
  unfold initialSubgraphPaths at h
  split at h
  · exact Or.inl (Except.error.inj h).symm
  · split at h
    · cases h
    · exact Or.inr (Except.error.inj h).symm

theorem initial_assert_msgs (super : Graph) (kind : RootKind) (subs : Graph) (m : String)
    (h : ValidationState.initial super kind subs = .error (.assertion m)) :
    m = noSubgraphRootMsg ∨ m = rootTypeMismatchMsg ∨ m = noSupergraphRootMsg ∨
      m = invalidStateMsg := by
  unfold ValidationState.initial at h
  cases hsub : initialSubgraphPaths kind subs with
  | error t =>
    rw [hsub] at h
    simp only [bind, Except.bind, Except.error.injEq] at h
    rcases initialSubgraphPaths_err_inv kind subs t hsub with ht | ht <;> rw [ht] at h
    · exact Or.inl (TErr.assertion.inj h.symm)
    · exact Or.inr (Or.inl (TErr.assertion.inj h.symm))
  | ok subPaths =>
    rw [hsub] at h
    simp only [bind, Except.bind] at h
    split at h
    · simp only [Except.error.injEq, TErr.assertion.injEq] at h
      exact Or.inr (Or.inr (Or.inl h.symm))
    · have := mkValidationState_err_inv _ _ _ h
      simp only [TErr.assertion.injEq] at this
      exact Or.inr (Or.inr (Or.inr this))

theorem replay_assert_msgs (l : List (Transition × Edge)) (schema : Schema) :
    ∀ (init : ValidationState) (m : String),
    l.foldlM (fun st te => validateTransition schema st te.2) init = .error (.assertion m) →
    m = superEdgeCondMsg ∨ m = witnessSizeMsg ∨ m = invalidStateMsg := by
  induction l with
  | nil =>
    intro init m h
    simp [List.foldlM_nil, pure, Except.pure] at h
  | cons x xs ih =>
    intro init m h
    rw [List.foldlM_cons] at h
    cases hx : validateTransition schema init x.2 with
    | error t =>
      rw [hx] at h
      simp only [bind, Except.bind, Except.error.injEq] at h
      subst h
      exact validateTransition_assert_msgs schema init x.2 m hx
    | ok st2 =>
      rw [hx] at h
      simp only [bind, Except.bind] at h
      exact ih st2 m h

theorem computeSubgraphPaths_err_inv (p : GraphPath) (subs : Graph) (m : String)
    (h : computeSubgraphPaths p subs = .error m) :
    computeSubgraphPathsInner p subs = .error (.assertion m) := by
  unfold computeSubgraphPaths at h
  split at h
  · cases h
  · cases h
  · next heq =>
    rw [heq]
    simp only [Except.error.injEq] at h
    rw [h]

/-- C9: a conditioned supergraph edge is rejected by the `validateTransition`
assertion (never reported as an ordinary validation error), a conditioned
supergraph path is rejected by the `computeSubgraphPaths` assertion before
replaying, and under the unconditioned precondition neither assertion can
fire. -/
theorem conditioned_edges_assert :
    (∀ (schema : Schema) (s : ValidationState) (e : Edge), e.conditions.isSome →
      validateTransition schema s e = .error (.assertion superEdgeCondMsg)) ∧
    (∀ (schema : Schema) (s : ValidationState) (e : Edge), e.conditions = none →
      validateTransition schema s e ≠ .error (.assertion superEdgeCondMsg)) ∧
    (∀ (p : GraphPath) (subs : Graph), p.hasAnyEdgeConditions = true →
      computeSubgraphPaths p subs = .error pathCondMsg) ∧
    (∀ (p : GraphPath) (subs : Graph), p.hasAnyEdgeConditions = false →
      computeSubgraphPaths p subs ≠ .error pathCondMsg) := by
  refine ⟨?_, ?_, ?_, ?_⟩
  · intro schema s e hc
    unfold validateTransition
    rw [if_pos hc]
  · intro schema s e hc h
    have hmsgs := validateTransition_assert_msgs schema s e superEdgeCondMsg h
    unfold validateTransition at h
    dsimp only at h
    rw [if_neg (by simp [hc])] at h
    split at h
    · split at h
      · simp at h
      · next m2 hve =>
        simp only [Except.error.injEq, TErr.assertion.injEq] at h
        have := validationError_err_inv _ _ m2 hve
        rw [this] at h
        exact absurd h.symm (by decide)
    · have := mkValidationState_err_inv _ _ _ h
      simp only [TErr.assertion.injEq] at this
      exact absurd this (by decide)
  · intro p subs hc
    unfold computeSubgraphPaths computeSubgraphPathsInner
    rw [if_pos hc]
  · intro p subs hc h
    have hinner := computeSubgraphPaths_err_inv p subs pathCondMsg h
    unfold computeSubgraphPathsInner at hinner
    rw [if_neg (by simp [hc])] at hinner
    cases hini : ValidationState.initial p.graph p.rootKind subs with
    | error t =>
      rw [hini] at hinner
      simp only [bind, Except.bind, Except.error.injEq] at hinner
      cases t with
      | validation ve => cases hinner
      | assertion m2 =>
        simp only [TErr.assertion.injEq] at hinner
        rcases initial_assert_msgs _ _ _ m2 hini with hm | hm | hm | hm <;>
          rw [hm] at hinner <;> exact absurd hinner (by decide)
    | ok init =>
      rw [hini] at hinner
      simp only [bind, Except.bind] at hinner
      rcases replay_assert_msgs p.edges _ init pathCondMsg hinner with hm | hm | hm <;>
        exact absurd hm (by decide)

/-- C9 witness: the conditioned-edge assertion fires on a conditioned edge
and cannot fire on the unconditioned examples. -/
theorem conditioned_edges_assert_witness :
    validateTransition ⟨"s"⟩ (ValidationState.mk ⟨wSuper, wSuperRoot, .query, []⟩ [])
        wCondSuperEdge = .error (.assertion superEdgeCondMsg) ∧
    validateTransition ⟨"s"⟩ (ValidationState.mk ⟨wSuper, wSuperRoot, .query, []⟩ [])
        wSuperEdge ≠ .error (.assertion superEdgeCondMsg) ∧
    computeSubgraphPaths wCondPath wSubsOk = .error pathCondMsg ∧
    computeSubgraphPaths wFailPath wSubsOk ≠ .error pathCondMsg := by
  refine ⟨?_, ?_, ?_, ?_⟩
  · exact conditioned_edges_assert.1 ⟨"s"⟩ _ wCondSuperEdge rfl
  · exact conditioned_edges_assert.2.1 ⟨"s"⟩ _ wSuperEdge rfl
  · exact conditioned_edges_assert.2.2.1 wCondPath wSubsOk rfl
  · exact conditioned_edges_assert.2.2.2 wFailPath wSubsOk rfl

theorem advance_mem (schema : Schema) (p : GraphPath) (t : Transition) (target : String)
    (q : GraphPath) (hq : q ∈ advancePathWithTransition schema p t target) :
    ∃ e2, e2 ∈ outEdges p.graph p.tailVert ∧ e2 ∈ p.graph.edges ∧ q = p.add t e2 ∧
      e2.tail.typeName = target ∧ matchesTransition t e2.transition = true := by
  unfold advancePathWithTransition at hq
  obtain ⟨e2, he2, rfl⟩ := List.mem_map.mp hq
  obtain ⟨hin, hpred⟩ := List.mem_filter.mp he2
  have hedge : e2 ∈ p.graph.edges := (List.mem_filter.mp hin).1
  simp only [Bool.and_eq_true] at hpred
  exact ⟨e2, hin, hedge, rfl, beq_iff_eq.mp hpred.1.2, hpred.1.1⟩

theorem validationError_ok_inv (p : GraphPath) (subs : List GraphPath) (ve : ValidationError)
    (h : validationError p subs = .ok ve) :
    ve.supergraphUnsatisfiablePath = p ∧ ve.subgraphsPaths = subs := by
  unfold validationError at h
  cases hb : buildWitnessOperation p with
  | error m => rw [hb] at h; simp [Except.map] at h
  | ok w =>
    rw [hb] at h
    simp only [Except.map, Except.ok.injEq] at h
    rw [← h]
    exact ⟨rfl, rfl⟩

/-- C2: for an unconditioned supergraph edge, `validateTransition` either
returns the state whose supergraph path is the old path extended by exactly
that edge and whose candidates are exactly the surviving advanced subgraph
paths, or — when zero candidates survive — throws the `ValidationError`
built from the extended path and the pre-step candidate set, with no
partial result. -/
theorem validateTransition_step :
    ∀ (schema : Schema) (s : ValidationState) (e : Edge), e.conditions = none →
      ((s.subgraphPaths.map (fun p =>
          advancePathWithTransition schema p e.transition e.tail.typeName)).flatten ≠ [] →
        validateTransition schema s e =
          .ok ⟨s.supergraphPath.add e.transition e,
            (s.subgraphPaths.map (fun p =>
              advancePathWithTransition schema p e.transition e.tail.typeName)).flatten⟩) ∧
      ((s.subgraphPaths.map (fun p =>
          advancePathWithTransition schema p e.transition e.tail.typeName)).flatten = [] →
        validateTransition schema s e =
          .error (.validation ⟨"TODO", s.supergraphPath.add e.transition e, s.subgraphPaths,
            ⟨(s.supergraphPath.add e.transition e).rootKind,
             buildWitnessNextStep
               ((s.supergraphPath.add e.transition e).edges.map (fun te => te.2)) 0, ()⟩⟩)) := by
  intro schema s e hcond
  constructor
  · intro hne
    unfold validateTransition
    dsimp only
    rw [if_neg (by simp [hcond])]
    rw [if_neg (by simp [hne])]
    apply mkValidationState_ok
    intro q hq
    rw [List.mem_flatten] at hq
    obtain ⟨sub, hsub, hqsub⟩ := hq
    obtain ⟨p, hp, rfl⟩ := List.mem_map.mp hsub
    obtain ⟨e2, _, _, rfl, htail, _⟩ := advance_mem schema p e.transition e.tail.typeName _ hqsub
    rw [tailTypeName_add, tailTypeName_add, htail]
  · intro hempty
    unfold validateTransition
    dsimp only
    rw [if_neg (by simp [hcond])]
    rw [if_pos (by simp [hempty])]
    rw [validationError_of_ne _ _ (by simp [GraphPath.add])]

/-- C2 witness: the step function evaluated on concrete states — one where
a candidate survives and one where none does. -/
theorem validateTransition_step_witness :
    validateTransition ⟨"supergraph"⟩
        ⟨⟨wSuper, wSuperRoot, .query, []⟩, [⟨wSubsOk, wSubsRoot, .query,
          [(.freeTransition, wSubsFreeEdge)]⟩]⟩ wSuperEdge =
      .ok ⟨GraphPath.add ⟨wSuper, wSuperRoot, .query, []⟩ wSuperEdge.transition wSuperEdge,
        (List.map (fun p => advancePathWithTransition ⟨"supergraph"⟩ p wSuperEdge.transition
            wSuperEdge.tail.typeName)
          [⟨wSubsOk, wSubsRoot, .query, [(.freeTransition, wSubsFreeEdge)]⟩]).flatten⟩ ∧
    validateTransition ⟨"supergraph"⟩
        ⟨⟨wSuper, wSuperRoot, .query, []⟩, [⟨wSubsBad, wSubsRoot, .query,
          [(.freeTransition, wSubsFreeEdge)]⟩]⟩ wSuperEdge =
      .error (.validation ⟨"TODO",
        GraphPath.add ⟨wSuper, wSuperRoot, .query, []⟩ wSuperEdge.transition wSuperEdge,
        [⟨wSubsBad, wSubsRoot, .query, [(.freeTransition, wSubsFreeEdge)]⟩],
        ⟨(GraphPath.add ⟨wSuper, wSuperRoot, .query, []⟩ wSuperEdge.transition
            wSuperEdge).rootKind,
         buildWitnessNextStep ((GraphPath.add ⟨wSuper, wSuperRoot, .query, []⟩
            wSuperEdge.transition wSuperEdge).edges.map (fun te => te.2)) 0, ()⟩⟩) := by
  constructor
  · exact (validateTransition_step ⟨"supergraph"⟩ _ wSuperEdge rfl).1 (List.cons_ne_nil _ _)
  · exact (validateTransition_step ⟨"supergraph"⟩ _ wSuperEdge rfl).2 rfl

/-- C10: every `ValidationError` thrown by `validateTransition` carries the
prior supergraph path extended by the current edge — hence at least one
edge — so the non-empty-path assertion of `buildWitnessOperation` can never
fire during validation. -/
theorem validationError_nonempty_path :
    ∀ (schema : Schema) (s : ValidationState) (e : Edge),
      (∀ ve, validateTransition schema s e = .error (.validation ve) →
        ve.supergraphUnsatisfiablePath = s.supergraphPath.add e.transition e ∧
        ve.supergraphUnsatisfiablePath.edges.length > 0) ∧
      validateTransition schema s e ≠ .error (.assertion witnessSizeMsg) := by
  intro schema s e
  constructor
  · intro ve h
    unfold validateTransition at h
    dsimp only at h
    split at h
    · cases h
    · split at h
      · split at h
        · next ve2 hve2 =>
          simp only [Except.error.injEq, TErr.validation.injEq] at h
          subst h
          have hpath := (validationError_ok_inv _ _ _ hve2).1
          refine ⟨hpath, ?_⟩
          rw [hpath]
          simp [GraphPath.add]
        · cases h
      · have ht := mkValidationState_err_inv _ _ _ h
        exact absurd ht (by simp)
  · intro h
    unfold validateTransition at h
    dsimp only at h
    split at h
    · simp only [Except.error.injEq, TErr.assertion.injEq] at h
      exact absurd h (by decide)
    · split at h
      · rw [validationError_of_ne _ _ (by simp [GraphPath.add])] at h
        cases h
      · have := mkValidationState_err_inv _ _ _ h
        simp only [TErr.assertion.injEq] at this
        exact absurd this (by decide)

/-- C10 witness: the concrete error thrown when validating the tiny
supergraph against the field-less services graph carries the one-edge
extended path. -/
theorem validationError_nonempty_path_witness :
    wFailErr.supergraphUnsatisfiablePath =
      GraphPath.add ⟨wSuper, wSuperRoot, .query, []⟩ wSuperEdge.transition wSuperEdge ∧
    wFailErr.supergraphUnsatisfiablePath.edges.length > 0 ∧
    validateTransition ⟨"supergraph"⟩
        ⟨⟨wSuper, wSuperRoot, .query, []⟩, [⟨wSubsBad, wSubsRoot, .query,
          [(.freeTransition, wSubsFreeEdge)]⟩]⟩ wSuperEdge ≠
      .error (.assertion witnessSizeMsg) := by
  have h1 := (validationError_nonempty_path ⟨"supergraph"⟩
    ⟨⟨wSuper, wSuperRoot, .query, []⟩, [⟨wSubsBad, wSubsRoot, .query,
      [(.freeTransition, wSubsFreeEdge)]⟩]⟩ wSuperEdge).1 wFailErr (by rfl)
  exact ⟨h1.1, h1.2, (validationError_nonempty_path ⟨"supergraph"⟩ _ wSuperEdge).2⟩

/-- C8: for a root kind present in the merged graph, `ValidationState.initial`
pairs the single merged-graph root vertex (as a zero-length path) with one
candidate subgraph path per outgoing edge of the matching services-graph
root, each being the root path extended by that edge under a free
transition; and it fails with an assertion when the services graph has no
root of that kind. -/
theorem validationState_initial_spec :
    (∀ (super : Graph) (kind : RootKind) (subs : Graph) (rootS rootU : Vertex),
      super.root kind = some rootS →
      subs.root kind = some rootU →
      rootU.typeName = federatedGraphRootTypeName kind →
      (∀ e ∈ outEdges subs rootU, e.tail.typeName = rootS.typeName) →
      ValidationState.initial super kind subs =
        .ok ⟨⟨super, rootS, kind, []⟩,
          (outEdges subs rootU).map
            (fun e => (GraphPath.mk subs rootU kind []).add .freeTransition e)⟩) ∧
    (∀ (super : Graph) (kind : RootKind) (subs : Graph), subs.root kind = none →
      ValidationState.initial super kind subs = .error (.assertion noSubgraphRootMsg)) := by
  constructor
  · intro super kind subs rootS rootU hrs hru hname htails
    unfold ValidationState.initial
    have hsub : initialSubgraphPaths kind subs =
        .ok ((outEdges subs rootU).map
          (fun e => (GraphPath.mk subs rootU kind []).add .freeTransition e)) := by
      unfold initialSubgraphPaths
      rw [hru]
      dsimp only
      rw [if_pos (beq_iff_eq.mpr hname)]
    rw [hsub]
    simp only [bind, Except.bind]
    have hroot : GraphPath.fromGraphRoot super kind = some ⟨super, rootS, kind, []⟩ := by
      unfold GraphPath.fromGraphRoot
      rw [hrs]
      rfl
    rw [hroot]
    apply mkValidationState_ok
    intro p hp
    obtain ⟨e, he, rfl⟩ := List.mem_map.mp hp
    rw [tailTypeName_add]
    exact htails e he
  · intro super kind subs hnone
    unfold ValidationState.initial
    have hsub : initialSubgraphPaths kind subs = .error (.assertion noSubgraphRootMsg) := by
      unfold initialSubgraphPaths
      rw [hnone]
    rw [hsub]
    rfl

/-- C8 witness: the initial state for the tiny example graphs, and the
assertion on a services graph with no query root. -/
theorem validationState_initial_spec_witness :
    ValidationState.initial wSuper .query wSubsOk =
      .ok ⟨⟨wSuper, wSuperRoot, .query, []⟩,
        (outEdges wSubsOk wSubsRoot).map
          (fun e => (GraphPath.mk wSubsOk wSubsRoot .query []).add .freeTransition e)⟩ ∧
    ValidationState.initial wSuper .query wSubsNoRoot =
      .error (.assertion noSubgraphRootMsg) := by
  constructor
  · exact validationState_initial_spec.1 wSuper .query wSubsOk wSuperRoot wSubsRoot rfl rfl rfl
      (by decide)
  · exact validationState_initial_spec.2 wSuper .query wSubsNoRoot rfl

/-- C1: `validateGraphComposition` returns no error when the traversal
drains its stack, returns the first thrown `ValidationError` as the `error`
field instead of throwing it, and lets a non-`ValidationError` exception
(an assertion failure) propagate uncaught. -/
theorem validateGraphComposition_error_handling :
    ∀ (fuel : Nat) (super subs : Graph),
      (runValidation fuel super subs = some (.ok ()) →
        validateGraphComposition fuel super subs = some (.ok none)) ∧
      (∀ e, runValidation fuel super subs = some (.error (.validation e)) →
        validateGraphComposition fuel super subs = some (.ok (some e))) ∧
      (∀ m, runValidation fuel super subs = some (.error (.assertion m)) →
        validateGraphComposition fuel super subs = some (.error m)) := by
  intro fuel super subs
  refine ⟨?_, ?_, ?_⟩
  · intro h
    unfold validateGraphComposition
    rw [h]
    rfl
  · intro e h
    unfold validateGraphComposition
    rw [h]
    rfl
  · intro m h
    unfold validateGraphComposition
    rw [h]
    rfl

/-- C1 witness: the three outcomes on the tiny example graphs — success,
a caught validation error, and a propagated assertion failure. -/
theorem validateGraphComposition_error_handling_witness :
    validateGraphComposition 3 wSuper wSubsOk = some (.ok none) ∧
    validateGraphComposition 3 wSuper wSubsBad = some (.ok (some wFailErr)) ∧
    validateGraphComposition 3 wSuper wSubsNoRoot = some (.error noSubgraphRootMsg) := by
  refine ⟨?_, ?_, ?_⟩
  · exact (validateGraphComposition_error_handling 3 wSuper wSubsOk).1 (by rfl)
  · exact (validateGraphComposition_error_handling 3 wSuper wSubsBad).2.1 wFailErr (by rfl)
  · exact (validateGraphComposition_error_handling 3 wSuper wSubsNoRoot).2.2
      noSubgraphRootMsg (by rfl)

/-- C5: the condition-validation driver returns the failure marker exactly
when advancing the current selection leaves zero surviving path sets; a
surviving selection pushes one work item per sub-selection (none when there
are no sub-selections); and draining the stack yields the success value,
which is distinct from the failure marker. -/
theorem validateConditions_driver :
    (∀ (g : Graph) (schema : Schema) (excl : List Nat),
      condLoop g schema excl [] = .undefinedSuccess) ∧
    CondResult.undefinedSuccess ≠ CondResult.nullFailure ∧
    (∀ (g : Graph) (schema : Schema) (excl : List Nat) (s : CondState),
      validateCurrentSelection g schema excl s = none ↔
        advancePathSets g schema excl s.selection s.subgraphPaths = []) ∧
    (∀ (g : Graph) (schema : Schema) (excl : List Nat) (s : CondState) (l : List CondState),
      validateCurrentSelection g schema excl s = some l →
      l = match s.selection.selectionSet with
        | some ss => ss.sels.map (fun sub => CondState.mk sub
            (advancePathSets g schema excl s.selection s.subgraphPaths))
        | none => []) ∧
    (∀ (g : Graph) (schema : Schema) (excl : List Nat) (s : CondState)
      (rest : List CondState),
      validateCurrentSelection g schema excl s = none →
        condLoop g schema excl (s :: rest) = .nullFailure) ∧
    (∀ (g : Graph) (schema : Schema) (excl : List Nat) (s : CondState)
      (rest : List CondState) (l : List CondState),
      validateCurrentSelection g schema excl s = some l →
        condLoop g schema excl (s :: rest) = condLoop g schema excl (l.reverse ++ rest)) ∧
    (∀ (g : Graph) (schema : Schema) (excl : List Nat) (conds : SelectionSet) (ip : GraphPath),
      validateConditions g schema excl conds ip =
        condLoop g schema excl ((conds.sels.map (fun s => CondState.mk s [[ip]])).reverse)) := by
  refine ⟨?_, by decide, ?_, ?_, ?_, ?_, ?_⟩
  · intro g schema excl
    simp [condLoop]
  · intro g schema excl s
    constructor
    · intro h
      unfold validateCurrentSelection at h
      dsimp only at h
      split at h
      · next h2 => exact List.isEmpty_iff.mp h2
      · cases h
    · intro h
      unfold validateCurrentSelection
      dsimp only
      rw [if_pos (List.isEmpty_iff.mpr h)]
  · intro g schema excl s l h
    unfold validateCurrentSelection at h
    dsimp only at h
    split at h
    · cases h
    · exact (Option.some.inj h).symm
  · intro g schema excl s rest h
    have hempty : advancePathSets g schema excl s.selection s.subgraphPaths = [] := by
      unfold validateCurrentSelection at h
      dsimp only at h
      split at h
      · next h2 => exact List.isEmpty_iff.mp h2
      · cases h
    simp only [condLoop]
    rw [hempty]
    rfl
  · intro g schema excl s rest l h
    have hne : (advancePathSets g schema excl s.selection s.subgraphPaths).isEmpty = false := by
      unfold validateCurrentSelection at h
      dsimp only at h
      split at h
      · cases h
      · next h2 => simp [List.isEmpty_iff, h2]
    have hl : l = match s.selection.selectionSet with
        | some ss => ss.sels.map (fun sub => CondState.mk sub
            (advancePathSets g schema excl s.selection s.subgraphPaths))
        | none => [] := by
      unfold validateCurrentSelection at h
      dsimp only at h
      split at h
      · cases h
      · exact (Option.some.inj h).symm
    simp only [condLoop]
    rw [hne]
    cases hss : s.selection.selectionSet with
    | some ss =>
      rw [hss] at hl
      simp [hl]
    | none =>
      rw [hss] at hl
      simp [hl]
  · intro g schema excl conds ip
    simp [validateConditions]

/-- C5 witness: the driver clauses evaluated on the tiny condition graph —
an unsatisfiable selection fails, a satisfiable leaf selection pushes no
work items and the stack drains to success. -/
theorem validateConditions_driver_witness :
    condLoop wCondGraph ⟨"s"⟩ [] [] = .undefinedSuccess ∧
    advancePathSets wCondGraph ⟨"s"⟩ [] wCondStateBad.selection wCondStateBad.subgraphPaths
      = [] ∧
    condLoop wCondGraph ⟨"s"⟩ [] [wCondStateBad] = .nullFailure ∧
    condLoop wCondGraph ⟨"s"⟩ [] [wCondStateOk] =
      condLoop wCondGraph ⟨"s"⟩ [] (List.reverse [] ++ []) ∧
    validateConditions wCondGraph ⟨"s"⟩ [] wCondOk (GraphPath.create wCondGraph wCondHead) =
      condLoop wCondGraph ⟨"s"⟩ []
        ((wCondOk.sels.map (fun s => CondState.mk s
          [[GraphPath.create wCondGraph wCondHead]])).reverse) := by
  refine ⟨?_, ?_, ?_, ?_, ?_⟩
  · exact validateConditions_driver.1 wCondGraph ⟨"s"⟩ []
  · exact (validateConditions_driver.2.2.1 wCondGraph ⟨"s"⟩ [] wCondStateBad).mp
      (by simp [validateCurrentSelection, advancePathSets, advanceSimultaneous,
        advancePathsEach, advanceOpPathEdges, listProd, outEdges, matchesElement,
        GraphPath.create, GraphPath.tailVert, wCondGraph, wCondEdge, wCondHead, wCondTail,
        wCondStateBad])
  · exact validateConditions_driver.2.2.2.2.1 wCondGraph ⟨"s"⟩ [] wCondStateBad []
      (by simp [validateCurrentSelection, advancePathSets, advanceSimultaneous,
        advancePathsEach, advanceOpPathEdges, listProd, outEdges, matchesElement,
        GraphPath.create, GraphPath.tailVert, wCondGraph, wCondEdge, wCondHead, wCondTail,
        wCondStateBad])
  · exact validateConditions_driver.2.2.2.2.2.1 wCondGraph ⟨"s"⟩ [] wCondStateOk [] []
      (by simp [validateCurrentSelection, advancePathSets, advanceSimultaneous,
        advancePathsEach, advanceOpPathEdges, listProd, outEdges, matchesElement,
        GraphPath.create, GraphPath.tailVert, wCondGraph, wCondEdge, wCondHead, wCondTail,
        wCondStateOk, Selection.selectionSet, GraphPath.add])
  · exact validateConditions_driver.2.2.2.2.2.2 wCondGraph ⟨"s"⟩ [] wCondOk
      (GraphPath.create wCondGraph wCondHead)

theorem validateTransition_ok_inv (schema : Schema) (s : ValidationState) (e : Edge)
    (c : ValidationState) (h : validateTransition schema s e = .ok c) :
    c.supergraphPath = s.supergraphPath.add e.transition e ∧
    c.subgraphPaths = (s.subgraphPaths.map
      (fun p => advancePathWithTransition schema p e.transition e.tail.typeName)).flatten ∧
    c.subgraphPaths ≠ [] := by
  unfold validateTransition at h
  dsimp only at h
  split at h
  · cases h
  · split at h
    · split at h <;> cases h
    · next hne =>
      obtain ⟨hc, _⟩ := mkValidationState_ok_inv _ _ _ h
      subst hc
      refine ⟨rfl, rfl, ?_⟩
      simpa [List.isEmpty_iff] using hne

theorem expandEdges_mem (schema : Schema) (s : ValidationState) :
    ∀ (es : List Edge) (children : List ValidationState),
      expandEdges schema s es = .ok children →
      children.length ≤ es.length ∧
      ∀ c ∈ children, ∃ e ∈ es, validateTransition schema s e = .ok c ∧
        c.supergraphPath.isTerminal = false ∧ c.hasCycled = false := by
  intro es
  induction es with
  | nil =>
    intro children h
    simp only [expandEdges, pure, Except.pure, Except.ok.injEq] at h
    subst h
    simp
  | cons e rest ih =>
    intro children h
    unfold expandEdges at h
    cases hvt : validateTransition schema s e with
    | error t => rw [hvt] at h; simp [bind, Except.bind] at h
    | ok ns =>
      rw [hvt] at h
      simp only [bind, Except.bind] at h
      cases hex : expandEdges schema s rest with
      | error t => rw [hex] at h; simp at h
      | ok others =>
        rw [hex] at h
        simp only [Except.ok.injEq] at h
        obtain ⟨hlen, hmem⟩ := ih others hex
        by_cases hguard : (!ns.supergraphPath.isTerminal && !ns.hasCycled) = true
        · rw [if_pos hguard] at h
          subst h
          simp only [Bool.and_eq_true, Bool.not_eq_true'] at hguard
          constructor
          · simp only [List.length_cons]
            omega
          · intro c hc
            rcases List.mem_cons.mp hc with hc | hc
            · exact ⟨e, List.mem_cons_self _ _, hc ▸ hvt, hc ▸ hguard.1, hc ▸ hguard.2⟩
            · obtain ⟨e2, he2, hrest⟩ := hmem c hc
              exact ⟨e2, List.mem_cons_of_mem _ he2, hrest⟩
        · rw [if_neg hguard] at h
          subst h
          constructor
          · simp only [List.length_cons]
            omega
          · intro c hc
            obtain ⟨e2, he2, hrest⟩ := hmem c hc
            exact ⟨e2, List.mem_cons_of_mem _ he2, hrest⟩

theorem pathInv_extend (subs : Graph) (l : Nat) (p : GraphPath) (t : Transition) (e2 : Edge)
    (hp : pathInv subs l p) (hfree : t.isFree = false) (hidx : e2.tail.index < subs.numVerts)
    (hcyc : (p.add t e2).hasJustCycled = false) : pathInv subs (l + 1) (p.add t e2) := by
  obtain ⟨hg, hnd, hrange, hlen⟩ := hp
  have hseen : (p.add t e2).seenAfter = p.seenAfter ++ [e2.tail.index] := by
    rw [seenAfter_add, if_neg (by simp [hfree])]
  have hnotin : e2.tail.index ∉ p.seenAfter := by
    rw [hasJustCycled_add] at hcyc
    simp only [hfree, Bool.not_false, Bool.true_and] at hcyc
    simpa using hcyc
  refine ⟨by simp [GraphPath.add, hg], ?_, ?_, ?_⟩
  · rw [hseen, List.nodup_append]
    exact ⟨hnd, List.nodup_singleton _, by simp [List.disjoint_singleton, hnotin]⟩
  · rw [hseen]
    intro v hv
    rcases List.mem_append.mp hv with hv | hv
    · exact hrange v hv
    · simp only [List.mem_singleton] at hv
      subst hv
      exact hidx
  · rw [hseen]
    simp only [List.length_append, List.length_singleton, hlen]

theorem nodup_lt_bound (l : List Nat) (n : Nat) (hnd : l.Nodup) (hb : ∀ v ∈ l, v < n) :
    l.length ≤ n := by
  have h1 : l.toFinset.card = l.length := List.toFinset_card_of_nodup hnd
  have h2 : l.toFinset ⊆ Finset.range n := by
    intro v hv
    rw [List.mem_toFinset] at hv
    exact Finset.mem_range.mpr (hb v hv)
  have h3 := Finset.card_le_card h2
  rw [h1, Finset.card_range] at h3
  exact h3

theorem stateInv_step (super subs : Graph) (schema : Schema) (s c : ValidationState) (e : Edge)
    (hinv : stateInv super subs s) (he : e ∈ super.edges) (hnf : noFreeEdges super)
    (hwf : graphWF subs)
    (hok : validateTransition schema s e = .ok c) (hcyc : c.hasCycled = false) :
    stateInv super subs c ∧ superLen c = superLen s + 1 := by
  obtain ⟨hsg, hslen, hpaths⟩ := hinv
  obtain ⟨hcp, hcs, hcne⟩ := validateTransition_ok_inv schema s e c hok
  have hlen : superLen c = superLen s + 1 := by
    simp [superLen, hcp, GraphPath.add]
  have hfree : e.transition.isFree = false := hnf e he
  have hnocyc : ∀ q ∈ c.subgraphPaths, q.hasJustCycled = false := by
    intro q hq
    unfold ValidationState.hasCycled at hcyc
    rw [List.any_eq_false] at hcyc
    simpa using hcyc q hq
  have hpathsc : ∀ q ∈ c.subgraphPaths, pathInv subs (superLen s + 1) q := by
    intro q hq
    have hqcyc := hnocyc q hq
    rw [hcs] at hq
    rw [List.mem_flatten] at hq
    obtain ⟨sub, hsub, hqsub⟩ := hq
    obtain ⟨p, hp, rfl⟩ := List.mem_map.mp hsub
    obtain ⟨e2, _, he2, rfl, _, _⟩ :=
      advance_mem schema p e.transition e.tail.typeName _ hqsub
    have hpinv := hpaths p hp
    exact pathInv_extend subs (superLen s) p e.transition e2 hpinv hfree
      (hwf e2 (hpinv.1 ▸ he2)) hqcyc
  have hbound : superLen c ≤ subs.numVerts := by
    obtain ⟨q, hq⟩ := List.exists_mem_of_ne_nil _ hcne
    obtain ⟨_, hnd, hrange, hql⟩ := hpathsc q hq
    have := nodup_lt_bound q.seenAfter subs.numVerts hnd hrange
    omega
  refine ⟨⟨?_, hbound, ?_⟩, hlen⟩
  · simp [hcp, GraphPath.add, hsg]
  · rw [hlen]
    exact hpathsc

theorem initialSubgraphPaths_ok_inv (kind : RootKind) (subs : Graph)
    (subPaths : List GraphPath) (h : initialSubgraphPaths kind subs = .ok subPaths) :
    ∃ root, subs.root kind = some root ∧
      subPaths = (outEdges subs root).map
        (fun e => (GraphPath.mk subs root kind []).add .freeTransition e) := by
  unfold initialSubgraphPaths at h
  split at h
  · cases h
  · next root hroot =>
    split at h
    · exact ⟨root, hroot, (Except.ok.inj h).symm⟩
    · cases h

theorem initial_inv (super subs : Graph) (kind : RootKind) (st : ValidationState)
    (hwf : graphWF subs)
    (h : ValidationState.initial super kind subs = .ok st) :
    stateInv super subs st ∧ superLen st = 0 := by
  unfold ValidationState.initial at h
  cases hsub : initialSubgraphPaths kind subs with
  | error t => rw [hsub] at h; simp [bind, Except.bind] at h
  | ok subPaths =>
    rw [hsub] at h
    simp only [bind, Except.bind] at h
    split at h
    · cases h
    · next rootPath hsome =>
      obtain ⟨hst, _⟩ := mkValidationState_ok_inv _ _ _ h
      subst hst
      unfold GraphPath.fromGraphRoot at hsome
      cases hrt : super.root kind with
      | none => rw [hrt] at hsome; cases hsome
      | some rv =>
        rw [hrt] at hsome
        rw [Option.map_some'] at hsome
        have hsome2 := Option.some.inj hsome
        obtain ⟨root, hroot, hsp⟩ := initialSubgraphPaths_ok_inv kind subs subPaths hsub
        have hlen0 : superLen (ValidationState.mk rootPath subPaths) = 0 := by
          simp [superLen, ← hsome2]
        refine ⟨⟨?_, ?_, ?_⟩, hlen0⟩
        · simp [← hsome2]
        · simp [hlen0]
        · rw [hlen0]
          intro p hp
          rw [hsp] at hp
          obtain ⟨e, he, rfl⟩ := List.mem_map.mp hp
          have hee : e ∈ subs.edges := (List.mem_filter.mp he).1
          have hseen : ((GraphPath.mk subs root kind []).add .freeTransition e).seenAfter =
              [e.tail.index] := by
            rw [seenAfter_add]
            simp [Transition.isFree]
          refine ⟨by simp [GraphPath.add], ?_, ?_, ?_⟩
          · rw [hseen]; exact List.nodup_singleton _
          · rw [hseen]
            intro v hv
            simp only [List.mem_singleton] at hv
            subst hv
            exact hwf e hee
          · rw [hseen]; rfl

theorem initStates_mem (super subs : Graph) :
    ∀ (ks : List RootKind) (states : List ValidationState),
      initStates super subs ks = .ok states →
      ∀ st ∈ states, ∃ k, ValidationState.initial super k subs = .ok st := by
  intro ks
  induction ks with
  | nil =>
    intro states h
    simp only [initStates, pure, Except.pure, Except.ok.injEq] at h
    subst h
    simp
  | cons k rest ih =>
    intro states h
    unfold initStates at h
    cases hini : ValidationState.initial super k subs with
    | error t => rw [hini] at h; simp [bind, Except.bind] at h
    | ok st0 =>
      rw [hini] at h
      simp only [bind, Except.bind] at h
      cases hrest : initStates super subs rest with
      | error t => rw [hrest] at h; simp at h
      | ok others =>
        rw [hrest] at h
        simp only [Except.ok.injEq] at h
        subst h
        intro st hst
        rcases List.mem_cons.mp hst with hst | hst
        · exact ⟨k, hst ▸ hini⟩
        · exact ih others hrest st hst

theorem buildInitialStack_mem (super subs : Graph) (stack : List ValidationState)
    (h : buildInitialStack super subs = .ok stack) :
    ∀ st ∈ stack, ∃ k, ValidationState.initial super k subs = .ok st := by
  unfold buildInitialStack at h
  cases hini : initStates super subs super.rootKinds with
  | error t => rw [hini] at h; simp [bind, Except.bind] at h
  | ok states =>
    rw [hini] at h
    simp only [bind, Except.bind, Except.ok.injEq] at h
    subst h
    intro st hst
    exact initStates_mem super subs super.rootKinds states hini st (List.mem_reverse.mp hst)

theorem sum_map_weight (children : List ValidationState) (K n L : Nat)
    (hall : ∀ c ∈ children, superLen c = L) :
    (children.map (stateWeight K n)).sum = children.length * K ^ (n + 1 - L) := by
  induction children with
  | nil => simp
  | cons c cs ih =>
    simp only [List.map_cons, List.sum_cons, List.length_cons]
    rw [ih (fun x hx => hall x (List.mem_cons_of_mem _ hx))]
    rw [stateWeight, hall c (List.mem_cons_self _ _)]
    ring

theorem stackWeight_step (K n : Nat) (children rest : List ValidationState)
    (s : ValidationState) (hK : 0 < K) (hcount : children.length < K)
    (hlen : ∀ c ∈ children, superLen c = superLen s + 1) (hsl : superLen s ≤ n) :
    stackWeight K n (children.reverse ++ rest) < stackWeight K n (s :: rest) := by
  unfold stackWeight
  rw [List.map_append, List.sum_append, List.map_reverse, List.sum_reverse]
  rw [sum_map_weight children K n (superLen s + 1) hlen]
  simp only [List.map_cons, List.sum_cons]
  have h2 : stateWeight K n s = K ^ (n + 1 - superLen s) := rfl
  have h3 : n + 1 - superLen s = (n - superLen s) + 1 := by omega
  have h4 : n + 1 - (superLen s + 1) = n - superLen s := by omega
  rw [h2, h3, h4, pow_succ]
  have hx : 0 < K ^ (n - superLen s) := Nat.pos_pow_of_pos _ hK
  have h5 : children.length * K ^ (n - superLen s) < K * K ^ (n - superLen s) :=
    Nat.mul_lt_mul_of_pos_right hcount hx
  have h6 : K * K ^ (n - superLen s) = K ^ (n - superLen s) * K := Nat.mul_comm _ _
  omega

theorem stateWeight_pos (K n : Nat) (hK : 0 < K) (s : ValidationState) :
    0 < stateWeight K n s :=
  Nat.pos_pow_of_pos _ hK

theorem validateLoop_terminates (super subs : Graph) (schema : Schema)
    (hnf : noFreeEdges super) (hwf : graphWF subs) :
    ∀ (N : Nat) (stack : List ValidationState),
      stackWeight (super.edges.length + 1) subs.numVerts stack ≤ N →
      (∀ s ∈ stack, stateInv super subs s) →
      ∃ fuel, (validateLoop schema fuel stack).isSome := by
  intro N
  induction N with
  | zero =>
    intro stack hw hinv
    cases stack with
    | nil => exact ⟨1, by simp [validateLoop]⟩
    | cons s rest =>
      exfalso
      have hpos := stateWeight_pos (super.edges.length + 1) subs.numVerts (by omega) s
      have : stateWeight (super.edges.length + 1) subs.numVerts s ≤
          stackWeight (super.edges.length + 1) subs.numVerts (s :: rest) := by
        unfold stackWeight
        simp only [List.map_cons, List.sum_cons]
        omega
      omega
  | succ N ih =>
    intro stack hw hinv
    cases stack with
    | nil => exact ⟨1, by simp [validateLoop]⟩
    | cons s rest =>
      cases hh : handleState schema s with
      | error t => exact ⟨1, by simp [validateLoop, hh]⟩
      | ok children =>
        have hsinv := hinv s (List.mem_cons_self _ _)
        have hrest : ∀ x ∈ rest, stateInv super subs x :=
          fun x hx => hinv x (List.mem_cons_of_mem _ hx)
        unfold handleState at hh
        obtain ⟨hcount, hmem⟩ := expandEdges_mem schema s _ _ hh
        have hes : ∀ e ∈ s.supergraphPath.nextEdges, e ∈ super.edges := by
          intro e he
          unfold GraphPath.nextEdges outEdges at he
          rw [hsinv.1] at he
          exact (List.mem_filter.mp he).1
        have hchild : ∀ c ∈ children, stateInv super subs c ∧ superLen c = superLen s + 1 := by
          intro c hc
          obtain ⟨e, hein, hok, _, hcyc⟩ := hmem c hc
          exact stateInv_step super subs schema s c e hsinv (hes e hein) hnf hwf hok hcyc
        have hnextinv : ∀ x ∈ children.reverse ++ rest, stateInv super subs x := by
          intro x hx
          rcases List.mem_append.mp hx with hx | hx
          · exact (hchild x (List.mem_reverse.mp hx)).1
          · exact hrest x hx
        have hcountK : children.length < super.edges.length + 1 := by
          have h1 : s.supergraphPath.nextEdges.length ≤ super.edges.length := by
            unfold GraphPath.nextEdges outEdges
            rw [hsinv.1]
            exact List.length_filter_le _ _
          omega
        have hwlt : stackWeight (super.edges.length + 1) subs.numVerts
            (children.reverse ++ rest) <
            stackWeight (super.edges.length + 1) subs.numVerts (s :: rest) :=
          stackWeight_step _ _ children rest s (by omega) hcountK
            (fun c hc => (hchild c hc).2) hsinv.2.1
        obtain ⟨fuel, hfuel⟩ := ih (children.reverse ++ rest) (by omega) hnextinv
        refine ⟨fuel + 1, ?_⟩
        have : validateLoop schema (fuel + 1) (s :: rest) =
            validateLoop schema fuel (children.reverse ++ rest) := by
          simp [validateLoop, handleState, hh]
        rw [this]
        exact hfuel

/-- C3: `validateGraphComposition` terminates for every well-formed pair of
input graphs (services graphs with cyclic type references included, the
merged graph carrying no free-transition edges): some finite fuel drains
the driver stack or surfaces the first error; and a successor state is
pushed only when its supergraph tail is not terminal and no candidate
subgraph path has revisited a vertex. -/
theorem validateGraphComposition_terminates :
    (∀ (super subs : Graph), graphWF subs → noFreeEdges super →
      ∃ fuel, (validateGraphComposition fuel super subs).isSome) ∧
    (∀ (schema : Schema) (s : ValidationState) (es : List Edge)
      (children : List ValidationState), expandEdges schema s es = .ok children →
      ∀ c ∈ children, c.supergraphPath.isTerminal = false ∧ c.hasCycled = false) := by
  constructor
  · intro super subs hwf hnf
    cases hb : buildInitialStack super subs with
    | error t =>
      refine ⟨0, ?_⟩
      simp [validateGraphComposition, runValidation, hb]
    | ok stack =>
      have hinv : ∀ st ∈ stack, stateInv super subs st := by
        intro st hst
        obtain ⟨k, hk⟩ := buildInitialStack_mem super subs stack hb st hst
        exact (initial_inv super subs k st hwf hk).1
      obtain ⟨fuel, hfuel⟩ := validateLoop_terminates super subs (super.sources.headD ⟨""⟩)
        hnf hwf (stackWeight (super.edges.length + 1) subs.numVerts stack) stack
        (le_refl _) hinv
      refine ⟨fuel, ?_⟩
      simp only [validateGraphComposition, runValidation, hb, Option.isSome_map']
      exact hfuel
  · intro schema s es children h c hc
    obtain ⟨_, _, _, hterm, hcyc⟩ := (expandEdges_mem schema s es children h).2 c hc
    exact ⟨hterm, hcyc⟩

/-- C3 witness: the tiny example pair is well formed and free of merged
free transitions, and the traversal over it terminates. -/
theorem validateGraphComposition_terminates_witness :
    graphWF wSubsOk ∧ noFreeEdges wSuper ∧
    ∃ fuel, (validateGraphComposition fuel wSuper wSubsOk).isSome :=
  ⟨by unfold graphWF; decide, by unfold noFreeEdges; decide,
    validateGraphComposition_terminates.1 wSuper wSubsOk
      (by unfold graphWF; decide) (by unfold noFreeEdges; decide)⟩

end Fed
